/-
OccultaShield — verification of the video-processing pipeline core.

This file contains a shallow embedding, in Lean 4, of the parts of the
OccultaShield backend that the specification's claims are about:

* the orchestrator's post-verification branching
  (`backend/app/services/video_processor.py`),
* the tracker (`backend/app/modules/detection/tracker.py`) together with the
  capture manager (`backend/app/modules/detection/capture_manager.py`) and the
  per-frame loop of `VideoDetector._process_batch`
  (`backend/app/modules/detection/detector.py`),
* the consensus agent (`backend/app/modules/verification/consensus_agent.py`),
* the vision-client mock responses
  (`backend/app/modules/verification/gemma_client.py`),
* the progress broker (`backend/app/services/progress_manager.py`),
* the anonymizer's interpolation pre-pass and the GPU mask gate
  (`backend/app/modules/edition/video_editor.py`).

Modelling conventions:

* Python `float` arithmetic is modelled with exact rationals (`ℚ`).  Where a
  floating-point rounding step is itself decisive for a claim (the tracker's
  `float32` cost matrix), the rounding is modelled explicitly (`f32round`).
* Python dicts are modelled as insertion-ordered association lists, Python
  sets as lists considered up to membership.
* `asyncio` suspension points are irrelevant for the claimed properties; the
  affected coroutines are modelled as sequential functions.
* External collaborators (YOLO/Kornia models, `cv2.fillPoly`, Gaussian blur,
  ffmpeg) are modelled as parameters of the functions that call them.
-/
import Mathlib

namespace OccultaShield

/-! ## Basic Python-modelling utilities -/

/-- Code-point comparison of character lists: `strLtL a b` is true iff `a`
precedes `b` lexicographically.  This is the comparison Python uses for
`str` ordering (`sorted`, `<`). -/
def strLtL : List Char → List Char → Bool
  | [], [] => false
  | [], _ :: _ => true
  | _ :: _, [] => false
  | a :: as, b :: bs =>
      if a.toNat < b.toNat then true
      else if b.toNat < a.toNat then false
      else strLtL as bs

/-- Python string `<=` (used by `sorted` on strings). -/
def strLe (s t : String) : Bool := !(strLtL t.data s.data)

/-- One insertion step of insertion sort on strings. -/
def insertStr (a : String) : List String → List String
  | [] => [a]
  | b :: bs => if strLe a b then a :: b :: bs else b :: insertStr a bs

/-- Ascending sort of a list of strings by code points; models Python's
`sorted` on strings. -/
def sortStrs : List String → List String
  | [] => []
  | a :: as => insertStr a (sortStrs as)

/-- Model of Python `sorted(list(<set>))` applied to a set of strings built by
unioning lists: deduplicate, then sort.  Python's set iteration order is
unspecified, but `sorted` makes the result canonical. -/
def pySortedSet (xs : List String) : List String := sortStrs xs.dedup

/-- ASCII lower-casing of a character; Python's `str.lower` restricted to the
ASCII strings that appear in the keyword tables. -/
def lowerChar (c : Char) : Char :=
  if 65 ≤ c.toNat ∧ c.toNat ≤ 90 then Char.ofNat (c.toNat + 32) else c

/-- Model of Python `str.lower()`. -/
def lowerStr (s : String) : String := ⟨s.data.map lowerChar⟩

/-- Python `int(x)` applied to a float: truncation toward zero. -/
def pyInt (x : ℚ) : ℤ := if x < 0 then -⌊-x⌋ else ⌊x⌋

/-- Round to the nearest integer, halves rounded up.  Used to model rounding
to the nearest representable binary floating-point value; an IEEE-754 tie
(rounded to even) can differ from this model only by one unit in the last
place, upward, and no tie occurs at the values the proofs depend on. -/
def rnd (y : ℚ) : ℤ := ⌊y + 1/2⌋

/-- Binary normalisation with fuel: `frexpAux fuel x = (m, e)` with
`x = m * 2 ^ e`, and `1 ≤ m < 2` whenever `x > 0` and the fuel suffices.
The fuel only bounds how far the exponent search walks; the identity
`m * 2 ^ e = x` holds unconditionally. -/
def frexpAux : ℕ → ℚ → ℚ × ℤ
  | 0, x => (x, 0)
  | fuel + 1, x =>
      if x < 1 then
        let p := frexpAux fuel (2 * x)
        (p.1, p.2 - 1)
      else if 2 ≤ x then
        let p := frexpAux fuel (x / 2)
        (p.1, p.2 + 1)
      else (x, 0)

/-- The value of a nonnegative rational rounded to the `float32` grid
(24-bit significand), rounding to nearest.  Subnormal underflow (below
`2 ^ (-126)`) is not modelled; the values the claims depend on are normal.
Nonpositive inputs return `0` (only `0` itself occurs in the code paths
modelled here). -/
def f32round (x : ℚ) : ℚ :=
  if x ≤ 0 then 0
  else
    let p := frexpAux 64 x
    ((rnd (p.1 * 2 ^ (23 : ℕ)) : ℤ) : ℚ) * (2 : ℚ) ^ (p.2 - 23)

/-- The exact value of the Python float literal `0.3` (IEEE-754 binary64):
`0.299999999999999988897769753748…`. -/
def float64_0_3 : ℚ := 5404319552844595 / 2 ^ 54

/-- The exact value of the Python expression `1.0 - 0.3` evaluated in
binary64 arithmetic.  The exact difference `1 - float64_0_3` is a tie between
two representable values and rounds to even, giving the representation of
`0.7`: `0.699999999999999955591…`. -/
def float64_1_minus_0_3 : ℚ := 3152519739159347 / 2 ^ 52

/-- Python `max(a, b)` on numbers (used where evaluation of `max` on `ℚ`
literals must reduce by `if`-splitting). -/
def qmax (a b : ℚ) : ℚ := if a ≤ b then b else a

/-- Python `min(a, b)` on numbers. -/
def qmin (a b : ℚ) : ℚ := if a ≤ b then a else b

/-- An integer-keyed Python dict (insertion-ordered association list). -/
abbrev NDict (β : Type) := List (ℕ × β)

/-- Dict lookup. -/
def nget? {β} (d : NDict β) (k : ℕ) : Option β :=
  (d.find? (fun p => p.1 = k)).map (·.2)

/-- Dict assignment `d[k] = v`: overwrite in place if present, else append. -/
def nset {β} (d : NDict β) (k : ℕ) (v : β) : NDict β :=
  match d with
  | [] => [(k, v)]
  | (k', v') :: rest => if k' = k then (k, v) :: rest else (k', v') :: nset rest k v

/-- Insertion step for ascending `ℕ` sort. -/
def insertNat (a : ℕ) : List ℕ → List ℕ
  | [] => [a]
  | b :: bs => if a ≤ b then a :: b :: bs else b :: insertNat a bs

/-- `sorted(keys)` for integer frame keys. -/
def sortNat : List ℕ → List ℕ
  | [] => []
  | a :: as => insertNat a (sortNat as)

/-- Substring test: Python's `pat in s`. -/
def containsSub (s pat : String) : Bool :=
  s.data.tails.any (fun t => pat.data.isPrefixOf t)

/-- Python's `any(kw in s for kw in kws)`. -/
def anyKwIn (s : String) (kws : List String) : Bool :=
  kws.any (fun kw => containsSub s kw)

/-! ## Python dictionaries

JSON-like values returned by the vision client and consumed by the consensus
agent; a dict is an insertion-ordered association list. -/

/-- A Python value as it appears in the verdict dictionaries. -/
inductive PyVal where
  | vb (b : Bool)
  | vs (s : String)
  | vq (q : ℚ)
  | vlist (l : List String)
  | vdict (d : List (String × PyVal))
  | vnone

/-- A Python dict with string keys. -/
abbrev PyDict := List (String × PyVal)

/-- Key lookup (`d[k]` / `d.get(k)`). -/
def pyget (r : PyDict) (k : String) : Option PyVal :=
  (r.find? (fun p => p.1 = k)).map (·.2)

/-- The key list of a dict, in insertion order (`list(d.keys())`). -/
def pyKeys (r : PyDict) : List String := r.map (·.1)

/-- `r.get(k, default)` for a boolean field. -/
def getBoolD (r : PyDict) (k : String) (dflt : Bool) : Bool :=
  match pyget r k with
  | some (.vb b) => b
  | _ => dflt

/-- `r.get(k, default)` for a numeric field. -/
def getQD (r : PyDict) (k : String) (dflt : ℚ) : ℚ :=
  match pyget r k with
  | some (.vq q) => q
  | _ => dflt

/-- `r.get(k, default)` for a string field. -/
def getStrD (r : PyDict) (k : String) (dflt : String) : String :=
  match pyget r k with
  | some (.vs s) => s
  | _ => dflt

/-- `r.get(k, [])` for a string-list field (`isinstance(…, list)` guard). -/
def getStrListD (r : PyDict) (k : String) : List String :=
  match pyget r k with
  | some (.vlist l) => l
  | _ => []

/-- Python dict assignment `r[k] = v`: overwrite in place if the key exists,
else append. -/
def pyset (r : PyDict) (k : String) (v : PyVal) : PyDict :=
  match r with
  | [] => [(k, v)]
  | (k', v') :: rest => if k' = k then (k, v) :: rest else (k', v') :: pyset rest k v

/-! ## `GemmaClient` mock responses
(`backend/app/modules/verification/gemma_client.py`)

The free-text content of `visual_summary` and `reasoning` strings is kept
verbatim only where short; the structure and the `confidence` numbers are the
modelled content. -/

namespace GemmaClient

/-- `GemmaClient._classify_mock`: the mock sensitive-content classification,
keyed on filename substrings. -/
def classify_mock (image_path : String) : PyDict :=
  if anyKwIn (lowerStr image_path) ["finger"] ∨
      anyKwIn (lowerStr image_path) ["huella"] then
    [("detected_type", .vs "fingerprint"), ("confidence", .vq (85/100)),
     ("reasoning", .vs "Mock: Filename suggests fingerprint")]
  else if anyKwIn (lowerStr image_path) ["dni", "passport", "documento"] then
    [("detected_type", .vs "id_document"), ("confidence", .vq (85/100)),
     ("reasoning", .vs "Mock: Filename suggests ID")]
  else if anyKwIn (lowerStr image_path) ["card", "tarjeta", "visa"] then
    [("detected_type", .vs "credit_card"), ("confidence", .vq (85/100)),
     ("reasoning", .vs "Mock: Filename suggests credit card")]
  else if anyKwIn (lowerStr image_path) ["firma", "signature"] then
    [("detected_type", .vs "signature"), ("confidence", .vq (80/100)),
     ("reasoning", .vs "Mock: Filename suggests signature")]
  else
    [("detected_type", .vs "none"), ("confidence", .vq (7/10)),
     ("reasoning", .vs "Mock: No sensitive content detected")]

/-- The `visible_biometrics` sub-dict shared by the witness mock branches. -/
def mockBiometrics (marks : String) : PyVal :=
  .vdict [("face_visible", .vb true), ("tattoos_visible", .vb false),
          ("scars_visible", .vb false), ("distinctive_marks", .vs marks)]

/-- `GemmaClient._mock_visual_description`: the mock witness description for a
person capture, keyed on filename substrings. -/
def mock_visual_description (image_path : String) : PyDict :=
  if anyKwIn (lowerStr image_path) ["beach", "playa", "swim", "bikini", "bañador"] then
    [("visual_summary", .vs "Persona en traje de baño en ambiente de playa"),
     ("tags", .vlist ["swimwear", "beach", "outdoor", "recreational", "adult"]),
     ("environment", .vs "outdoor_beach"),
     ("clothing_level", .vs "swimwear"),
     ("visible_biometrics", mockBiometrics "none"),
     ("context_indicators", .vlist ["recreational_activity", "public_space", "leisure"]),
     ("age_group", .vs "adult"),
     ("confidence", .vq (85/100))]
  else if anyKwIn (lowerStr image_path) ["hospital", "medical", "doctor", "patient", "clinic"] then
    [("visual_summary", .vs "Persona en bata médica en entorno hospitalario"),
     ("tags", .vlist ["hospital_gown", "medical_setting", "indoor", "healthcare", "patient"]),
     ("environment", .vs "indoor_hospital"),
     ("clothing_level", .vs "medical"),
     ("visible_biometrics", mockBiometrics "none"),
     ("context_indicators", .vlist ["medical_context", "healthcare", "vulnerable_situation"]),
     ("age_group", .vs "adult"),
     ("confidence", .vq (85/100))]
  else if anyKwIn (lowerStr image_path) ["protest", "manifestacion", "demonstration"] then
    [("visual_summary", .vs "Persona participando en manifestación pública"),
     ("tags", .vlist ["protest", "outdoor", "political", "crowd", "demonstration"]),
     ("environment", .vs "street_protest"),
     ("clothing_level", .vs "casual"),
     ("visible_biometrics", mockBiometrics "none"),
     ("context_indicators", .vlist ["political_activity", "public_gathering", "expression_of_opinion"]),
     ("age_group", .vs "adult"),
     ("confidence", .vq (80/100))]
  else if anyKwIn (lowerStr image_path) ["child", "niño", "kid", "menor", "school"] then
    [("visual_summary", .vs "Menor de edad en entorno cotidiano"),
     ("tags", .vlist ["child", "minor", "casual", "everyday"]),
     ("environment", .vs "general_public_space"),
     ("clothing_level", .vs "casual"),
     ("visible_biometrics", mockBiometrics "none"),
     ("context_indicators", .vlist ["minor_present", "protection_required"]),
     ("age_group", .vs "child"),
     ("confidence", .vq (85/100))]
  else
    [("visual_summary", .vs "Persona adulta en ropa casual en espacio público"),
     ("tags", .vlist ["adult", "casual", "outdoor", "public_space"]),
     ("environment", .vs "general_public_space"),
     ("clothing_level", .vs "casual"),
     ("visible_biometrics", mockBiometrics "none"),
     ("context_indicators", .vlist ["everyday_activity", "public_space"]),
     ("age_group", .vs "adult"),
     ("confidence", .vq (75/100))]

/-- The response schema of the real witness call, as fixed by
`VISUAL_DESCRIPTION_PROMPT`: the field names, in order. -/
def witnessSchema : List String :=
  ["visual_summary", "tags", "environment", "clothing_level",
   "visible_biometrics", "context_indicators", "age_group", "confidence"]

/-- The response schema of the real classification call, as fixed by
`SENSITIVE_CONTENT_CLASSIFICATION_PROMPT`. -/
def classifySchema : List String := ["detected_type", "confidence", "reasoning"]

end GemmaClient

/-! ## `ConsensusAgent` (`backend/app/modules/verification/consensus_agent.py`) -/

namespace ConsensusAgent

/-- `VULNERABLE_CONTEXTS`, in source (insertion) order. -/
def VULNERABLE_CONTEXTS : List (String × List String) :=
  [("medical", ["hospital", "medical_setting", "clinic", "healthcare", "patient",
                "hospital_gown", "medical", "doctor", "surgery", "emergency_room"]),
   ("minor", ["child", "minor", "kid", "teenager", "school", "playground",
              "underage", "infant", "baby", "toddler"]),
   ("religious", ["religious_symbol", "church", "mosque", "synagogue", "temple",
                  "religious", "prayer", "worship", "religious_clothing"]),
   ("political", ["protest", "demonstration", "political", "rally", "activist",
                  "protest_sign", "manifestation", "political_gathering"]),
   ("intimate", ["swimwear", "minimal", "underwear", "nude", "nudity",
                 "changing_room", "bathroom", "intimate", "private_moment"]),
   ("ethnic", ["ethnic_clothing", "traditional_dress", "cultural_marker",
               "racial_identifier"])]

/-- `NORMAL_CONTEXTS`, in source order. -/
def NORMAL_CONTEXTS : List (String × List String) :=
  [("public_space", ["street", "sidewalk", "park", "plaza", "public_space",
                     "general_public_space", "outdoor", "urban"]),
   ("workplace", ["office", "workplace", "meeting", "conference", "business"]),
   ("commercial", ["shop", "store", "mall", "restaurant", "cafe", "hotel"]),
   ("recreational", ["beach", "pool", "gym", "sports", "recreational",
                     "leisure", "entertainment", "concert"]),
   ("transport", ["airport", "station", "bus", "train", "car", "traffic"])]

/-- Result record of `_analyze_vulnerability` (free-text `reason` abstracted
to a category label). -/
structure VulnResult where
  is_vulnerable : Bool
  vulnerability_type : Option String
  reason : String
  confidence : ℚ
  matching_keywords : List String

/-- `all_indicators_lower & set(keywords)` as a duplicate-free list. -/
def matchingOf (allLower : List String) (kws : List String) : List String :=
  (allLower.filter (fun i => i ∈ kws)).dedup

/-- The `for vuln_type, keywords in VULNERABLE_CONTEXTS.items()` loop of
`_analyze_vulnerability`: first category with a keyword match decides; a
`child`/`teenager` age group (or the `minor` category itself) redirects that
decision to the `minor` type. -/
def findVuln (allLower ages : List String) :
    List (String × List String) → Option VulnResult
  | [] => none
  | (vt, kws) :: rest =>
      if matchingOf allLower kws ≠ [] then
        if vt = "minor" ∨ "child" ∈ ages ∨ "teenager" ∈ ages then
          some ⟨true, some "minor", "minor", 95/100, matchingOf allLower kws⟩
        else
          some ⟨true, some vt, vt,
                if 2 ≤ (matchingOf allLower kws).length then 85/100 else 75/100,
                matchingOf allLower kws⟩
      else findVuln allLower ages rest

/-- The `for normal_type, keywords in NORMAL_CONTEXTS.items()` loop. -/
def findNormal (allLower : List String) :
    List (String × List String) → Option VulnResult
  | [] => none
  | (nt, kws) :: rest =>
      if matchingOf allLower kws ≠ [] then
        some ⟨false, none, nt, 80/100, matchingOf allLower kws⟩
      else findNormal allLower rest

/-- `ConsensusAgent._analyze_vulnerability`.  The four inputs are the
consolidated sets (modelled as lists up to membership); `all_indicators` is
`tags | environments | context_indicators` — the age groups are *not* part of
the keyword-matched indicator set. -/
def analyze_vulnerability (tags environments context_indicators age_groups :
    List String) : VulnResult :=
  let all_indicators_lower :=
    (tags ++ environments ++ context_indicators).map (fun i => lowerStr i)
  match findVuln all_indicators_lower age_groups VULNERABLE_CONTEXTS with
  | some v => v
  | none =>
      match findNormal all_indicators_lower NORMAL_CONTEXTS with
      | some v => v
      | none => ⟨false, none, "unclassified", 60/100, []⟩

/-- Python `max(a, b)` on numbers. -/
def qmax (a b : ℚ) : ℚ := if a ≤ b then b else a

/-- Python `max(list)` for a possibly-empty list with `0.0` fallback
(`max(confidences) if confidences else 0.0`). -/
def pyMaxQ : List ℚ → ℚ
  | [] => 0
  | h :: t => t.foldl qmax h

/-- Round half to even at the integer grid: Python's `round` on an exact
value (Python rounds the binary64 approximation; the two agree everywhere
except where the binary approximation of an exact decimal tie falls on the
other side, which does not occur at the values used in the proofs). -/
def roundHalfEven (y : ℚ) : ℤ :=
  let f := ⌊y⌋
  let r := y - f
  if r < 1/2 then f
  else if 1/2 < r then f + 1
  else if f % 2 = 0 then f else f + 1

/-- Python `round(x, 3)`. -/
def round3 (x : ℚ) : ℚ := ((roundHalfEven (x * 1000) : ℤ) : ℚ) / 1000

/-- The `action_priority` table of `ConsensusAgent.aggregate`
(`.get(action, 0)` semantics for unknown actions). -/
def action_priority (a : String) : ℕ :=
  if a = "mask" then 4
  else if a = "pixelate" then 3
  else if a = "blur" then 2
  else if a = "none" then 1
  else 0

/-- The defaults of `ConsensusAgent._validate`, in source order. -/
def validateDefaults : PyDict :=
  [("is_violation", .vb false), ("severity", .vs "none"), ("confidence", .vq 0),
   ("description", .vs ""), ("recommended_action", .vs "none"),
   ("violated_articles", .vlist []), ("reasoning", .vs ""),
   ("frames_analyzed", .vq 1)]

/-- `ConsensusAgent._validate`: fill in any missing field with its default. -/
def validate (r : PyDict) : PyDict :=
  validateDefaults.foldl
    (fun acc kv => if (pyget acc kv.1).isSome then acc else pyset acc kv.1 kv.2) r

/-- `ConsensusAgent.aggregate`: temporal-consensus fusion of per-frame
verdicts for a (non-person) track.  Free-text `reasoning` synthesis is
abstracted to a fixed label; every decision-carrying field is modelled. -/
def aggregate (results : List PyDict) : PyDict :=
  if results.length = 0 then
    [("is_violation", .vb false), ("confidence", .vq 0),
     ("reasoning", .vs "No results to aggregate"), ("frames_analyzed", .vq 0)]
  else if results.length = 1 then
    validate (results.headD [])
  else
    let violations := results.filter (fun r => getBoolD r "is_violation" false)
    let is_violation := 0 < violations.length
    let confidences := results.map (fun r => getQD r "confidence" 0)
    let avg_confidence := confidences.sum / confidences.length
    let max_confidence := pyMaxQ confidences
    let all_articles := results.flatMap (fun r => getStrListD r "violated_articles")
    let severity :=
      if is_violation then
        if 3 ≤ violations.length then "critical"
        else if 2 ≤ violations.length then "high"
        else getStrD (violations.headD []) "severity" "medium"
      else "none"
    let best_action := violations.foldl
      (fun best r =>
        let action := getStrD r "recommended_action" "none"
        if action_priority best < action_priority action then action else best)
      "none"
    validate
      [("is_violation", .vb is_violation),
       ("severity", .vs severity),
       ("confidence", .vq (round3 avg_confidence)),
       ("max_confidence", .vq (round3 max_confidence)),
       ("violated_articles", .vlist (pySortedSet all_articles)),
       ("recommended_action", .vs best_action),
       ("reasoning", .vs "synthesis"),
       ("frames_with_violation", .vq violations.length),
       ("detection_type",
        match pyget (results.headD []) "detection_type" with
        | some v => v
        | none => .vnone)]

end ConsensusAgent

/-! ## Progress broker (`backend/app/services/progress_manager.py`) -/

namespace ProgressManager

/-- An `asyncio.Queue`.  `asyncio` semantics: `maxsize <= 0` (the
constructor default `0`) means the queue is *unbounded*; `put` suspends only
when `0 < maxsize` and `maxsize` items are already queued. -/
structure PyQueue (ε : Type) where
  maxsize : ℕ
  items : List ε

/-- `Queue.full()`: whether a `put` would have to wait. -/
def PyQueue.isFull {ε} (q : PyQueue ε) : Bool :=
  decide (0 < q.maxsize ∧ q.maxsize ≤ q.items.length)

/-- The spec's notion of a bounded queue of capacity at least 32. -/
def PyQueue.boundedAtLeast32 {ε} (q : PyQueue ε) : Prop :=
  0 < q.maxsize ∧ 32 ≤ q.maxsize

/-- `ProgressManager.subscribe`: the queue it creates and hands to the SSE
consumer — `asyncio.Queue()` with no `maxsize` argument. -/
def subscribeQueue (ε : Type) : PyQueue ε := { maxsize := 0, items := [] }

/-- The subscriber list of one video after `subscribe` (the new queue is
appended under the broker lock). -/
def subscribe {ε} (subs : List (PyQueue ε)) : List (PyQueue ε) × PyQueue ε :=
  (subs ++ [subscribeQueue ε], subscribeQueue ε)

/-- One enqueue attempt of `ProgressManager._broadcast`:
`asyncio.wait_for(queue.put(event), timeout=1.0)`.  A `put` on a non-full
queue completes synchronously; on a full queue it suspends until space frees
or the 1 s deadline fires — the broker itself never dequeues, so within the
broadcast the deadline fires and the queue is reported dead (`none`). -/
def putWithDeadline {ε} (q : PyQueue ε) (e : ε) : Option (PyQueue ε) :=
  if q.isFull then none else some { q with items := q.items ++ [e] }

/-- `ProgressManager._broadcast`: deliver to every subscriber queue, then
drop the dead ones. -/
def broadcast {ε} (subs : List (PyQueue ε)) (e : ε) : List (PyQueue ε) :=
  (subs.map (fun q => putWithDeadline q e)).reduceOption

end ProgressManager

/-! ## Anonymizer (`backend/app/modules/edition/video_editor.py`) -/

namespace VideoAnonymizer

/-- An integer pixel box `[x1, y1, x2, y2]` as stored in
`action["bboxes"][frame]`. -/
structure IBox where
  x1 : ℤ
  y1 : ℤ
  x2 : ℤ
  y2 : ℤ

/-- One anonymization action handed to `VideoAnonymizer`
(`{"type", "track_id", "bboxes", "masks", "config"}`); the `config` fields
that the modelled paths read. -/
structure GAction where
  type : String
  track_id : ℕ
  bboxes : NDict IBox
  masks : NDict (List ℚ)
  kernel_size : ℕ := 31
  sigma : ℚ := 15
  blocks : ℕ := 10
  add_noise : Bool := true
  key : ℕ := 42

/-- The linearly interpolated box at frame `f` of the gap `(f1, f2)`:
`int(b1 + t * (b2 - b1))` per coordinate with `t = (f - f1) / gap`. -/
def lerpBox (b1 b2 : IBox) (f1 gap f : ℕ) : IBox :=
  let t : ℚ := ((f : ℚ) - (f1 : ℚ)) / (gap : ℚ)
  { x1 := pyInt ((b1.x1 : ℚ) + t * ((b2.x1 : ℚ) - (b1.x1 : ℚ))),
    y1 := pyInt ((b1.y1 : ℚ) + t * ((b2.y1 : ℚ) - (b1.y1 : ℚ))),
    x2 := pyInt ((b1.x2 : ℚ) + t * ((b2.x2 : ℚ) - (b1.x2 : ℚ))),
    y2 := pyInt ((b1.y2 : ℚ) + t * ((b2.y2 : ℚ) - (b1.y2 : ℚ))) }

/-- Fill one gap `(f1, f2)` of the pre-pass: when `1 < gap <= 10`, write an
interpolated box for every intervening frame (reading the endpoint boxes from
the *original* dict, as the source does). -/
def fillGap (orig : NDict IBox) (acc : NDict IBox) (f1 f2 : ℕ) : NDict IBox :=
  let gap := f2 - f1
  if 1 < gap ∧ gap ≤ 10 then
    match nget? orig f1, nget? orig f2 with
    | some b1, some b2 =>
        ((List.range (gap - 1)).map (fun i => f1 + 1 + i)).foldl
          (fun d f => nset d f (lerpBox b1 b2 f1 gap f)) acc
    | _, _ => acc
  else acc

/-- `VideoAnonymizer._interpolate_bboxes` on a single action: scan the sorted
covered frames pairwise and fill the short gaps. -/
def interpolate_bboxes (a : GAction) : GAction :=
  let frames := sortNat (a.bboxes.map (·.1))
  if frames.length < 2 then a
  else
    let pairs := frames.zip frames.tail
    { a with bboxes := pairs.foldl (fun d p => fillGap a.bboxes d p.1 p.2) a.bboxes }

/-- A single-channel image plane, `(y, x) ↦` value.  The three colour
channels are processed by identical per-pixel formulas; one channel is
modelled. -/
abbrev Image := ℕ → ℕ → ℚ

/-- Membership of a pixel in the ROI `[y1:y2, x1:x2]`. -/
def inRegion (y x y1 y2 x1 x2 : ℕ) : Prop :=
  y1 ≤ y ∧ y < y2 ∧ x1 ≤ x ∧ x < x2

instance (y x y1 y2 x1 x2 : ℕ) : Decidable (inRegion y x y1 y2 x1 x2) := by
  unfold inRegion; infer_instance

/-- `KorniaEffects.blur_region` (the Kornia path taken on the GPU effects
pipeline).  `gaussBlur` is the `kornia.filters.gaussian_blur2d` collaborator,
given the input plane and returning the blurred plane (read only inside the
ROI). -/
def blur_region (gaussBlur : Image → ℕ → ℚ → Image) (tensor : Image)
    (x1 y1 x2 y2 : ℕ) (mask : Option Image) (kernel_size : ℕ) (sigma : ℚ) :
    Image :=
  if y2 - y1 = 0 ∨ x2 - x1 = 0 then tensor
  else
    let ks := if kernel_size % 2 = 0 then kernel_size + 1 else kernel_size
    let blurred := gaussBlur tensor ks sigma
    fun y x =>
      if inRegion y x y1 y2 x1 x2 then
        match mask with
        | some m => tensor y x * (1 - m y x) + blurred y x * m y x
        | none => blurred y x
      else tensor y x

/-- `KorniaEffects.pixelate_region`.  `pixelOp` is the collaborator producing
the pixelated ROI plane (bilinear downsample to `blocks × blocks`, cached
noise keyed by `(track_id, blocks)`, clamp, nearest upsample). -/
def pixelate_region (pixelOp : Image → ℕ → ℕ → Bool → Image) (tensor : Image)
    (x1 y1 x2 y2 : ℕ) (mask : Option Image) (blocks track_id : ℕ)
    (add_noise : Bool) : Image :=
  let orig_h := y2 - y1
  let orig_w := x2 - x1
  if orig_h < 2 ∨ orig_w < 2 then tensor
  else
    let pixelated := pixelOp tensor blocks track_id add_noise
    fun y x =>
      if inRegion y x y1 y2 x1 x2 then
        match mask with
        | some m => tensor y x * (1 - m y x) + pixelated y x * m y x
        | none => pixelated y x
      else tensor y x

/-- `VideoAnonymizer._create_mask_tensor`: the size gate (`ratio < 0.001` of
the raw box against the frame area) yields an all-zero mask *before* the
polygon is even consulted; otherwise a polygon, if present and non-empty, is
rasterised by the `cv2.fillPoly` collaborator, and `None` is returned when
there is no polygon. -/
def create_mask_tensor (fillPoly : List ℚ → Image) (a : GAction)
    (frame_idx W H : ℕ) : Option Image :=
  let mask_poly := nget? a.masks frame_idx
  let gate : Bool :=
    match nget? a.bboxes frame_idx with
    | some b =>
        let area : ℚ := ((b.x2 - b.x1 : ℤ) : ℚ) * ((b.y2 - b.y1 : ℤ) : ℚ)
        let total_area : ℚ := (H : ℚ) * (W : ℚ)
        decide (area / total_area < 1/1000)
    | none => false
  if gate then some (fun _ _ => 0)
  else
    match mask_poly with
    | none => none
    | some poly => if poly.length = 0 then none else some (fillPoly poly)

/-- One action applied to one frame on the GPU path
(`VideoAnonymizer._process_batch_gpu`, per-action body): look up the box for
this frame, clip it to the frame, skip degenerate regions, then dispatch on
the action type.  `scrambleOp` abstracts the CPU scramble applied afterwards
for `mask` actions. -/
def apply_action_gpu (gaussBlur : Image → ℕ → ℚ → Image)
    (pixelOp : Image → ℕ → ℕ → Bool → Image)
    (fillPoly : List ℚ → Image)
    (scrambleOp : Image → ℕ → ℕ → ℕ → ℕ → ℕ → Image)
    (tensor : Image) (W H : ℕ) (a : GAction) (frame_idx : ℕ) : Image :=
  match nget? a.bboxes frame_idx with
  | none => tensor
  | some box =>
      let x1 := (max 0 (min box.x1 (W : ℤ))).toNat
      let y1 := (max 0 (min box.y1 (H : ℤ))).toNat
      let x2 := (max 0 (min box.x2 (W : ℤ))).toNat
      let y2 := (max 0 (min box.y2 (H : ℤ))).toNat
      if x2 ≤ x1 ∨ y2 ≤ y1 then tensor
      else if a.type = "blur" then
        blur_region gaussBlur tensor x1 y1 x2 y2
          (create_mask_tensor fillPoly a frame_idx W H) a.kernel_size a.sigma
      else if a.type = "pixelate" then
        pixelate_region pixelOp tensor x1 y1 x2 y2
          (create_mask_tensor fillPoly a frame_idx W H) a.blocks a.track_id
          a.add_noise
      else if a.type = "mask" then
        scrambleOp tensor x1 y1 x2 y2 a.key
      else tensor

end VideoAnonymizer

/-! ## Detection: tracker, capture manager, per-frame loop
(`backend/app/modules/detection/{tracker,capture_manager,detector}.py`) -/

namespace Detection

/-- `BoundingBox` (`models.py`): coordinates and confidence are Python
floats, modelled as exact rationals. -/
structure BBoxQ where
  x1 : ℚ
  y1 : ℚ
  x2 : ℚ
  y2 : ℚ
  confidence : ℚ
  frame : ℕ
  mask : Option (List ℚ) := none

instance : Inhabited BBoxQ := ⟨⟨0, 0, 0, 0, 0, 0, none⟩⟩

/-- `BoundingBox.area`. -/
def BBoxQ.area (b : BBoxQ) : ℚ := (b.x2 - b.x1) * (b.y2 - b.y1)

/-- `ObjectTracker._calculate_iou`. -/
def calculate_iou (bb1 bb2 : BBoxQ) : ℚ :=
  let xl := qmax bb1.x1 bb2.x1
  let yt := qmax bb1.y1 bb2.y1
  let xr := qmin bb1.x2 bb2.x2
  let yb := qmin bb1.y2 bb2.y2
  if xr < xl ∨ yb < yt then 0
  else
    let inter := (xr - xl) * (yb - yt)
    let uni := bb1.area + bb2.area - inter
    if 0 < uni then inter / uni else 0

/-- `ObjectTracker` constructor defaults: `iou_threshold=0.3` (the binary64
value of the literal), `max_age=30`, `min_hits=3` (`VideoDetector` uses
`ObjectTracker()` with these defaults). -/
def iou_threshold : ℚ := float64_0_3

/-- Tracker default `max_age`. -/
def max_age : ℕ := 30

/-- Tracker default `min_hits`. -/
def min_hits : ℕ := 3

/-- One cost-matrix entry (`tracker.py` lines 128–130): gate on
`iou >= self.iou_threshold`, then store `1.0 - iou` into the `float32`
matrix (`np.ones(..., dtype=np.float32)` leaves unmatched entries at `1`). -/
def costEntry (pred det : BBoxQ) : ℚ :=
  let iou := calculate_iou pred det
  if iou_threshold ≤ iou then f32round (1 - iou) else 1

/-- The acceptance test on an assigned pair (`tracker.py` line 139):
`cost_matrix[row, col] < (1.0 - self.iou_threshold)`, the right-hand side
being the binary64 difference. -/
def acceptCost (c : ℚ) : Bool := decide (c < float64_1_minus_0_3)

/-- One coordinate's slice of the `cv2.KalmanFilter(8, 4)` state: position,
velocity, and the 2×2 error covariance block `(c11, c12, c22)`.  The 8×8
filter of the source decomposes into four independent identical copies of
this 2-state filter because `transitionMatrix` pairs each coordinate with its
own velocity and both noise covariances are scalar multiples of the
identity. -/
structure KF2 where
  p : ℚ
  v : ℚ
  c11 : ℚ
  c12 : ℚ
  c22 : ℚ

/-- Filter state at track creation: `statePost = [bbox…, 0…]`,
`errorCovPost = 0` (the `cv2.KalmanFilter` constructor zero-fills it). -/
def KF2.init (z : ℚ) : KF2 := ⟨z, 0, 0, 0, 0⟩

/-- `cv2.KalmanFilter.predict()` on one coordinate block:
`statePre = A·statePost`, `errorCovPre = A·P·Aᵀ + Q` with
`Q = 0.03·I`, after which OpenCV copies the `pre` fields back onto the
`post` fields — so a single state models both. -/
def KF2.predict (k : KF2) : KF2 :=
  { p := k.p + k.v, v := k.v,
    c11 := k.c11 + 2 * k.c12 + k.c22 + 3/100,
    c12 := k.c12 + k.c22,
    c22 := k.c22 + 3/100 }

/-- `cv2.KalmanFilter.correct(z)` on one coordinate block, with measurement
noise `R = 0.1`:  gain `K = P·Hᵀ·(H·P·Hᵀ + R)⁻¹`, state update by the
innovation, covariance update `P ← (I − K·H)·P`. -/
def KF2.correct (k : KF2) (z : ℚ) : KF2 :=
  let s := k.c11 + 1/10
  let k1 := k.c11 / s
  let k2 := k.c12 / s
  let e := z - k.p
  { p := k.p + k1 * e, v := k.v + k2 * e,
    c11 := k.c11 - k1 * k.c11,
    c12 := k.c12 - k1 * k.c12,
    c22 := k.c22 - k2 * k.c12 }

/-- `tracker.Track`. -/
structure Track where
  track_id : ℕ
  detection_type : String
  last_bbox : BBoxQ
  first_frame : ℕ
  last_frame : ℕ
  hits : ℕ
  age : ℕ
  kx1 : KF2
  ky1 : KF2
  kx2 : KF2
  ky2 : KF2

/-- `Track.__init__`. -/
def Track.mkNew (tid : ℕ) (cls : String) (b : BBoxQ) (frame : ℕ) : Track :=
  ⟨tid, cls, b, frame, frame, 1, 0,
   KF2.init b.x1, KF2.init b.y1, KF2.init b.x2, KF2.init b.y2⟩

/-- `Track.predict()`: attenuate the velocities of `statePost` by `0.95`
when `age > 0`, then run the filter predict.  The clamped `BoundingBox` the
Python method returns is discarded at both call sites; only the state
mutation is observable. -/
def Track.predictStep (t : Track) : Track :=
  let att : KF2 → KF2 := fun k =>
    if 0 < t.age then { k with v := k.v * (95/100) } else k
  { t with kx1 := (att t.kx1).predict, ky1 := (att t.ky1).predict,
           kx2 := (att t.kx2).predict, ky2 := (att t.ky2).predict }

/-- The prediction box the matching loop reads from `kf.statePre[:4]`
(`tracker.py` lines 125–126): confidence `0.0`, current frame number. -/
def Track.predBox (t : Track) (frameNum : ℕ) : BBoxQ :=
  ⟨t.kx1.p, t.ky1.p, t.kx2.p, t.ky2.p, 0, frameNum, none⟩

/-- `Track.update(bbox, frame)`: store the measurement, reset the age, and
run the filter correct step on each coordinate. -/
def Track.updateWith (t : Track) (b : BBoxQ) (frame : ℕ) : Track :=
  { t with last_bbox := b, last_frame := frame, hits := t.hits + 1, age := 0,
           kx1 := t.kx1.correct b.x1, ky1 := t.ky1.correct b.y1,
           kx2 := t.kx2.correct b.x2, ky2 := t.ky2.correct b.y2 }

/-- Accumulate one detection into the class-grouped dict
(`dets_by_type.setdefault(cls, []).append(bbox)`). -/
def addDet (acc : List (String × List BBoxQ)) (d : String × BBoxQ) :
    List (String × List BBoxQ) :=
  match acc with
  | [] => [(d.1, [d.2])]
  | (c, bs) :: rest =>
      if c = d.1 then (c, bs ++ [d.2]) :: rest else (c, bs) :: addDet rest d

/-- Group detections by class, first-appearance key order. -/
def detsByType (dets : List (String × BBoxQ)) : List (String × List BBoxQ) :=
  dets.foldl addDet []

/-- One row of the cost matrix.  The source calls `trk.predict()` once per
matrix entry (mutating the filter state each time) and then reads
`statePre`; the row therefore advances the track's state once per detection
and computes each entry against the state reached so far. -/
def rowCosts (t : Track) (frameNum : ℕ) : List BBoxQ → Track × List ℚ
  | [] => (t, [])
  | b :: bs =>
      let t' := t.predictStep
      let c := costEntry (t'.predBox frameNum) b
      let r := rowCosts t' frameNum bs
      (r.1, c :: r.2)

/-- All length-`n` lists of distinct elements drawn from `avail`, in a
canonical enumeration order. -/
def injectionsList : ℕ → List ℕ → List (List ℕ)
  | 0, _ => [[]]
  | n + 1, avail =>
      avail.flatMap (fun c =>
        (injectionsList n (avail.erase c)).map (fun rest => c :: rest))

/-- Cost-matrix entry access with the `np.ones` fill value `1` as default. -/
def matrixEntry (m : List (List ℚ)) (i j : ℕ) : ℚ := (m.getD i []).getD j 1

/-- Total cost of a pairing. -/
def pairsCost (m : List (List ℚ)) (ps : List (ℕ × ℕ)) : ℚ :=
  (ps.map (fun p => matrixEntry m p.1 p.2)).sum

/-- First minimiser of `f` in a list. -/
def argminBy {α : Type} (f : α → ℚ) : List α → Option α
  | [] => none
  | a :: as =>
      match argminBy f as with
      | none => some a
      | some b => if f a ≤ f b then some a else some b

/-- Model of `scipy.optimize.linear_sum_assignment`: an optimal (minimum
total cost) matching of `min(rows, cols)` pairs.  scipy leaves the choice
among optima unspecified; the model takes the first minimiser in canonical
order, which is the unique optimum in every situation the theorems below
evaluate. -/
def linear_sum_assignment (m : List (List ℚ)) (rows cols : ℕ) :
    List (ℕ × ℕ) :=
  if rows ≤ cols then
    ((argminBy (pairsCost m)
      ((injectionsList rows (List.range cols)).map
        (fun l => (List.range rows).zip l))).getD [])
  else
    ((argminBy (pairsCost m)
      ((injectionsList cols (List.range rows)).map
        (fun l => l.zip (List.range cols)))).getD [])

/-- Re-insert the processed per-class tracks into the full track list at the
positions of the class's members (Python mutates the dict values in place,
preserving insertion order). -/
def mergeBack (cls : String) : List Track → List Track → List Track
  | [], _ => []
  | t :: ts, repl =>
      if t.detection_type = cls then
        match repl with
        | [] => t :: mergeBack cls ts []
        | r :: rs => r :: mergeBack cls ts rs
      else t :: mergeBack cls ts repl

/-- The per-class body of `ObjectTracker.update`: births when no active
track of the class exists; otherwise cost matrix, Hungarian assignment,
acceptance test, measurement updates, and births for unmatched
detections. -/
def processClass (tracks : List Track) (nextId : ℕ) (frameNum : ℕ)
    (cls : String) (bboxes : List BBoxQ) : List Track × ℕ :=
  let active := tracks.filter (fun t => t.detection_type = cls)
  if active.length = 0 then
    (tracks ++ bboxes.enum.map (fun jb => Track.mkNew (nextId + jb.1) cls jb.2 frameNum),
     nextId + bboxes.length)
  else if bboxes.length = 0 then (tracks, nextId)
  else
    let rowed := active.map (fun t => rowCosts t frameNum bboxes)
    let activeP := rowed.map (·.1)
    let matrix := rowed.map (·.2)
    let pairs := linear_sum_assignment matrix activeP.length bboxes.length
    let accepted := pairs.filter (fun p => acceptCost (matrixEntry matrix p.1 p.2))
    let updatedActive := activeP.enum.map (fun it =>
      match accepted.find? (fun p => p.1 = it.1) with
      | some pr => it.2.updateWith (bboxes.getD pr.2 default) frameNum
      | none => it.2)
    let matchedCols := accepted.map (·.2)
    let births := bboxes.enum.filter (fun jb => ¬ jb.1 ∈ matchedCols)
    (mergeBack cls tracks updatedActive ++
       births.enum.map (fun ijb => Track.mkNew (nextId + ijb.1) cls ijb.2.2 frameNum),
     nextId + births.length)

/-- `ObjectTracker` state. -/
structure TrackerState where
  tracks : List Track
  next_id : ℕ

/-- `ObjectTracker.update(detections, frame_num)`: age and predict every
track, process each detection class, then remove dead tracks and report
every surviving track with `hits >= min_hits` as
`(track_id, type, last_bbox)`. -/
def trackerUpdate (st : TrackerState) (dets : List (String × BBoxQ))
    (frameNum : ℕ) : TrackerState × List (ℕ × String × BBoxQ) :=
  let aged := st.tracks.map (fun t => Track.predictStep { t with age := t.age + 1 })
  let pr := (detsByType dets).foldl
    (fun acc g => processClass acc.1 acc.2 frameNum g.1 g.2) (aged, st.next_id)
  let confirmed := (pr.1.filter
      (fun t => ¬ max_age < t.age ∧ min_hits ≤ t.hits)).map
    (fun t => (t.track_id, t.detection_type, t.last_bbox))
  ({ tracks := pr.1.filter (fun t => ¬ max_age < t.age), next_id := pr.2 },
   confirmed)

/-! ### Capture manager (`capture_manager.py`) -/

/-- `CaptureManager` defaults. -/
def stability_threshold : ℚ := 1/2

/-- Default `stability_frames`. -/
def stability_frames : ℕ := 3

/-- Default `crop_margin` (pixels). -/
def crop_margin : ℤ := 20

/-- Default `max_captures_per_track`. -/
def max_captures_per_track : ℕ := 6

/-- `CaptureManager.get_capture_quota(track_duration_seconds)`. -/
def get_capture_quota (d : ℚ) : ℕ :=
  if d < 2 then 1
  else if d < 4 then 2
  else if d < 6 then 3
  else min max_captures_per_track (⌊d / 2⌋).toNat

/-- The per-track record of `CaptureManager.track_data`. -/
structure CMEntry where
  stable_count : ℕ
  last_capture_time : ℚ
  captures_taken : ℕ
  first_seen_time : ℚ

/-- `CaptureManager` mutable state. -/
structure CMState where
  track_data : NDict CMEntry

/-- `CaptureManager._save_capture`: clip the crop with a 20 px margin to the
frame and skip silently if the crop is empty; the actual JPEG writes are a
filesystem collaborator, so the model returns the path pair. -/
def save_capture (tid frame_num : ℕ) (bbox : BBoxQ) (W H : ℕ) :
    Option (String × String) :=
  let x1c : ℤ := max 0 (pyInt bbox.x1 - crop_margin)
  let y1c : ℤ := max 0 (pyInt bbox.y1 - crop_margin)
  let x2c : ℤ := min (W : ℤ) (pyInt bbox.x2 + crop_margin)
  let y2c : ℤ := min (H : ℤ) (pyInt bbox.y2 + crop_margin)
  if x1c < x2c ∧ y1c < y2c then
    some ("track_" ++ toString tid ++ "/capture_" ++ toString frame_num ++ ".jpg",
          "track_" ++ toString tid ++ "/capture_" ++ toString frame_num ++ "_bbox.jpg")
  else none

/-- `CaptureManager.consider_frame`: flat max-captures check, stability
gate, temporal spacing, then save.  Note that the duration-based
`get_capture_quota` is *not* consulted anywhere on this path. -/
def consider_frame (st : CMState) (tid : ℕ) (W H frame_num : ℕ) (bbox : BBoxQ)
    (fps capture_interval : ℚ) : CMState × Option (String × String) :=
  let entry := (nget? st.track_data tid).getD
    ⟨0, -999, 0, (frame_num : ℚ) / fps⟩
  if max_captures_per_track ≤ entry.captures_taken then
    (⟨nset st.track_data tid entry⟩, none)
  else
    let entry1 :=
      if stability_threshold ≤ bbox.confidence then
        { entry with stable_count := entry.stable_count + 1 }
      else { entry with stable_count := 0 }
    if entry1.stable_count < stability_frames then
      (⟨nset st.track_data tid entry1⟩, none)
    else
      let timestamp := (frame_num : ℚ) / fps
      if timestamp - entry1.last_capture_time < capture_interval then
        (⟨nset st.track_data tid entry1⟩, none)
      else
        match save_capture tid frame_num bbox W H with
        | some paths =>
            (⟨nset st.track_data tid
               { entry1 with last_capture_time := timestamp,
                             captures_taken := entry1.captures_taken + 1 }⟩,
             some paths)
        | none => (⟨nset st.track_data tid entry1⟩, none)

/-! ### Detection data model and per-frame loop
(`models.py`, `detector.py`) -/

/-- `models.Capture`. -/
structure CaptureQ where
  frame : ℕ
  image_path : String
  bbox : BBoxQ
  reason : String
  timestamp : ℚ

/-- `models.TrackedDetection`. -/
structure TrackedDetection where
  track_id : ℕ
  detection_type : String
  bbox_history : List BBoxQ := []
  captures : List CaptureQ := []
  is_confirmed : Bool := false

/-- `TrackedDetection.first_frame`
(`bbox_history[0].frame if bbox_history else 0`). -/
def TrackedDetection.first_frame (td : TrackedDetection) : ℕ :=
  match td.bbox_history with
  | [] => 0
  | b :: _ => b.frame

/-- `TrackedDetection.last_frame`
(`bbox_history[-1].frame if bbox_history else 0`). -/
def TrackedDetection.last_frame (td : TrackedDetection) : ℕ :=
  match td.bbox_history.getLast? with
  | none => 0
  | some b => b.frame

/-- `TrackedDetection.add_bbox`. -/
def TrackedDetection.add_bbox (td : TrackedDetection) (b : BBoxQ) :
    TrackedDetection :=
  { td with bbox_history := td.bbox_history ++ [b] }

/-- A raw per-frame detection as produced by the detector backends (an
external ML collaborator); `VideoDetector` attaches the frame number. -/
structure DetIn where
  x1 : ℚ
  y1 : ℚ
  x2 : ℚ
  y2 : ℚ
  conf : ℚ
  mask : Option (List ℚ) := none

/-- The `BoundingBox` the detector constructs for frame `frame`. -/
def DetIn.toBBox (d : DetIn) (frame : ℕ) : BBoxQ :=
  ⟨d.x1, d.y1, d.x2, d.y2, d.conf, frame, d.mask⟩

/-- The mutable state threaded through `VideoDetector.process_video`. -/
structure DetectState where
  tracker : TrackerState
  cm : CMState
  tracked : NDict TrackedDetection

/-- The per-confirmed-track body of `VideoDetector._process_batch`: create
the `TrackedDetection` on first report, append the reported bbox, then ask
the capture manager; a successful capture is appended with the *current*
frame number (`capture_interval=1.0` is what the detector passes). -/
def processConfirmed (W H : ℕ) (fps : ℚ) (frame_num : ℕ) (st : DetectState)
    (item : ℕ × String × BBoxQ) : DetectState :=
  let tid := item.1
  let label := item.2.1
  let bbox := item.2.2
  let td := (nget? st.tracked tid).getD
    { track_id := tid, detection_type := label }
  let td1 := td.add_bbox bbox
  let cmr := consider_frame st.cm tid W H frame_num bbox fps 1
  match cmr.2 with
  | some paths =>
      { st with cm := cmr.1,
                tracked := nset st.tracked tid
                  { td1 with captures := td1.captures ++
                      [⟨frame_num, paths.1, bbox, "periodic",
                        (frame_num : ℚ) / fps⟩] } }
  | none => { st with cm := cmr.1, tracked := nset st.tracked tid td1 }

/-- One frame of `VideoDetector._process_batch` (batch boundaries do not
affect the tracker or capture computations, so the loop is modelled
frame-by-frame). -/
def processFrame (W H : ℕ) (fps : ℚ) (st : DetectState)
    (dets : List (String × DetIn)) (frame_num : ℕ) : DetectState :=
  let pr := trackerUpdate st.tracker
    (dets.map (fun cd => (cd.1, cd.2.toBBox frame_num))) frame_num
  pr.2.foldl (processConfirmed W H fps frame_num) { st with tracker := pr.1 }

/-- `VideoDetector.process_video`: fold the per-frame processing over frames
`1 … numFrames`, with the per-frame detections supplied by the detector
collaborator `detsFn`. -/
def process_video (detsFn : ℕ → List (String × DetIn)) (numFrames W H : ℕ)
    (fps : ℚ) : DetectState :=
  (List.range numFrames).foldl
    (fun st i => processFrame W H fps st (detsFn (i + 1)) (i + 1))
    ⟨⟨[], 1⟩, ⟨[]⟩, []⟩

end Detection

/-! ## Orchestrator (`backend/app/services/video_processor.py`) -/

namespace VideoProcessor

/-- Observable pipeline events: persisted status writes, SSE phase changes,
progress updates, and the anonymizer invocation (which itself performs the
effect pass and the metadata-stripping finalize, and emits its own
events). -/
inductive PipeEvent where
  | statusWrite (s : String)
  | phaseChange (p : String)
  | progressUpdate (pct : ℕ)
  | anonymizeRun (actionCount : ℕ)
  | completeEvent
deriving DecidableEq

/-- The slice of a persisted verification result that the orchestrator's
branching reads. -/
structure VerifResult where
  is_violation : Bool

/-- One entry of a `UserDecisionBatch`. -/
structure UserDecision where
  verification_id : Option String
  action : String

/-- The decision loop of `VideoProcessor.apply_anonymization`: skip missing
ids and `no_modify`, fetch the linked detection from the store (collaborator
`fetch`, returning `(track_id, bbox_history map, masks map)`), and build one
action per remaining decision. -/
def build_actions
    (fetch : String → Option (ℕ × NDict VideoAnonymizer.IBox × NDict (List ℚ)))
    (decisions : List UserDecision) : List VideoAnonymizer.GAction :=
  decisions.foldl
    (fun acc d =>
      match d.verification_id with
      | none => acc
      | some vid =>
          if d.action = "no_modify" then acc
          else
            match fetch vid with
            | none => acc
            | some tbm =>
                acc ++ [{ type := d.action, track_id := tbm.1,
                          bboxes := tbm.2.1, masks := tbm.2.2 }]) []

/-- The event trace of `VideoProcessor.apply_anonymization` (phase 2) on the
happy path: phase change, anonymizer run over the built actions (an empty
action list still runs, stripping metadata), status `completed`, terminal
complete event. -/
def apply_anonymization_trace
    (fetch : String → Option (ℕ × NDict VideoAnonymizer.IBox × NDict (List ℚ)))
    (decisions : List UserDecision) : List PipeEvent :=
  let actions := build_actions fetch decisions
  [PipeEvent.phaseChange "anonymizing",
   PipeEvent.anonymizeRun actions.length,
   PipeEvent.statusWrite "completed",
   PipeEvent.completeEvent]

/-- The tail of `VideoProcessor.process_full_pipeline` after verification
results are persisted (`video_processor.py` lines 201–252): write status
`verified`, then — only when the detection list is empty — skip review and
invoke `apply_anonymization` with an *empty* decision list; with one or more
detections the run always parks at `waiting_for_review`, regardless of the
violation count. -/
def pipeline_after_verification
    (fetch : String → Option (ℕ × NDict VideoAnonymizer.IBox × NDict (List ℚ)))
    (detections : List Detection.TrackedDetection)
    (vResults : List VerifResult) : List PipeEvent :=
  let _total_violations := (vResults.filter (fun r => r.is_violation)).length
  [PipeEvent.statusWrite "verified"] ++
  (if detections.length = 0 then
    [PipeEvent.statusWrite "editing", PipeEvent.phaseChange "anonymizing"] ++
      apply_anonymization_trace fetch []
   else
    [PipeEvent.phaseChange "waiting_for_review", PipeEvent.progressUpdate 100])

end VideoProcessor

/-! ## Concrete detector traces and state invariants
(for the capture-placement and capture-quota analyses) -/

namespace Detection

/-- A detector trace: a stationary face with confidence `0.9` on frames
1–3, nothing afterwards (the track then coasts). -/
def c2detsFn (n : ℕ) : List (String × DetIn) :=
  if n ≤ 3 then [("face", ⟨0, 0, 10, 10, 9/10, none⟩)] else []

/-- A detector trace: the same stationary face on every frame. -/
def c7detsFn (n : ℕ) : List (String × DetIn) :=
  [("face", ⟨0, 0, 10, 10, 9/10, none⟩)]

/-- The box the `c2detsFn` run measures at frame 3 (the last detection; the
tracker keeps reporting it while the track coasts). -/
def c2bbox : BBoxQ := ⟨0, 0, 10, 10, 9/10, 3, none⟩

/-- The single capture the `c2detsFn` run takes: at frame 5, two frames
after the last real detection, with the stale frame-3 box. -/
def c2capture : CaptureQ :=
  ⟨5, "track_" ++ toString 1 ++ "/capture_" ++ toString 5 ++ ".jpg", c2bbox,
   "periodic", 1⟩

/-- The tracked detection the `c2detsFn` run produces for track 1. -/
def c2td : TrackedDetection :=
  { track_id := 1, detection_type := "face",
    bbox_history := [c2bbox, c2bbox, c2bbox],
    captures := [c2capture], is_confirmed := false }

/-- Tracker-side invariant: every track's reported box is no newer than the
current frame. -/
def tracksLE (n : ℕ) (ts : List Track) : Prop :=
  ∀ t ∈ ts, t.last_bbox.frame ≤ n

/-- `tracked_objects`-side invariant: histories are nonempty and hold only
boxes no newer than the current frame, and every capture sits at or after
the first history frame. -/
def trackedInv (n : ℕ) (d : NDict TrackedDetection) : Prop :=
  ∀ p ∈ d, (∀ b ∈ (p : ℕ × TrackedDetection).2.bbox_history, b.frame ≤ n) ∧
    p.2.bbox_history ≠ [] ∧
    ∀ c ∈ p.2.captures, p.2.first_frame ≤ c.frame

/-- Combined detector-state invariant after processing frames `1 … n`. -/
def detInv (n : ℕ) (st : DetectState) : Prop :=
  tracksLE n st.tracker.tracks ∧ trackedInv n st.tracked

end Detection

/-! # Theorems -/

/-! ## C1 — orchestrator review skipping -/

section C1
open VideoProcessor

/-- C1, counterexample: a run with one detection and zero violations does
*not* skip review — the trace parks at `waiting_for_review` and never writes
`completed` or invokes the anonymizer, refuting the claim's
"zero violations" disjunct. -/
theorem C1_zero_violations_still_reviews :
    ((VerifResult.mk false :: []).filter (fun r => r.is_violation)).length = 0 ∧
    PipeEvent.phaseChange "waiting_for_review" ∈
      pipeline_after_verification (fun _ => none)
        [{ track_id := 1, detection_type := "face" }] [VerifResult.mk false] ∧
    PipeEvent.statusWrite "completed" ∉
      pipeline_after_verification (fun _ => none)
        [{ track_id := 1, detection_type := "face" }] [VerifResult.mk false] := by
  refine ⟨rfl, ?_, ?_⟩ <;>
    simp [pipeline_after_verification, apply_anonymization_trace, build_actions]

/-- C1 (amended): only a run with *zero detections* skips review — it then
invokes anonymization with an empty decision list (so zero actions: metadata
strip only) and ends with the status written as `completed`; any run with at
least one detection, even with zero violations, instead parks at
`waiting_for_review`. -/
theorem C1_review_skip_iff_zero_detections
    (fetch : String → Option (ℕ × NDict VideoAnonymizer.IBox × NDict (List ℚ)))
    (dets : List Detection.TrackedDetection) (vres : List VerifResult) :
    (dets.length = 0 →
      pipeline_after_verification fetch dets vres =
        [PipeEvent.statusWrite "verified", PipeEvent.statusWrite "editing",
         PipeEvent.phaseChange "anonymizing", PipeEvent.phaseChange "anonymizing",
         PipeEvent.anonymizeRun 0, PipeEvent.statusWrite "completed",
         PipeEvent.completeEvent]) ∧
    (dets.length ≠ 0 →
      pipeline_after_verification fetch dets vres =
        [PipeEvent.statusWrite "verified",
         PipeEvent.phaseChange "waiting_for_review",
         PipeEvent.progressUpdate 100]) := by
  constructor <;> intro h <;>
    simp [pipeline_after_verification, apply_anonymization_trace, build_actions, h]

/-- C1 witness: the amended theorem applied at a zero-detection run and at a
one-detection run. -/
theorem C1_review_skip_iff_zero_detections_witness :
    (pipeline_after_verification (fun _ => none) [] [VerifResult.mk true] =
      [PipeEvent.statusWrite "verified", PipeEvent.statusWrite "editing",
       PipeEvent.phaseChange "anonymizing", PipeEvent.phaseChange "anonymizing",
       PipeEvent.anonymizeRun 0, PipeEvent.statusWrite "completed",
       PipeEvent.completeEvent]) ∧
    (pipeline_after_verification (fun _ => none)
        [{ track_id := 1, detection_type := "face" }] [] =
      [PipeEvent.statusWrite "verified",
       PipeEvent.phaseChange "waiting_for_review",
       PipeEvent.progressUpdate 100]) :=
  ⟨(C1_review_skip_iff_zero_detections (fun _ => none) [] [VerifResult.mk true]).1 rfl,
   (C1_review_skip_iff_zero_detections (fun _ => none)
      [{ track_id := 1, detection_type := "face" }] []).2 (by decide)⟩

end C1

/-! ## C4 — minor vulnerability classification -/

section C4
open ConsensusAgent

/-- If the age groups force the minor case, the first matching vulnerable
category returns the `minor` verdict, whatever category it is. -/
theorem findVuln_minor_of_match (allLower ages : List String)
    (hage : "child" ∈ ages ∨ "teenager" ∈ ages) :
    ∀ cats : List (String × List String),
      (∃ p ∈ cats, matchingOf allLower p.2 ≠ []) →
      ∃ m, findVuln allLower ages cats =
        some ⟨true, some "minor", "minor", 95/100, m⟩ := by
  intro cats
  induction cats with
  | nil => rintro ⟨p, hp, _⟩; cases hp
  | cons head tail ih =>
      obtain ⟨vt, kws⟩ := head
      rintro ⟨p, hp, hm⟩
      by_cases hmatch : matchingOf allLower kws = []
      · have hptail : p ∈ tail := by
          rcases List.mem_cons.mp hp with h | h
          · subst h; exact absurd hmatch hm
          · exact h
        obtain ⟨m, hfind⟩ := ih ⟨p, hptail, hm⟩
        refine ⟨m, ?_⟩
        have step : findVuln allLower ages ((vt, kws) :: tail) =
            findVuln allLower ages tail := by
          simp [findVuln, hmatch]
        rw [step]; exact hfind
      · refine ⟨matchingOf allLower kws, ?_⟩
        have hcond : vt = "minor" ∨ "child" ∈ ages ∨ "teenager" ∈ ages :=
          Or.inr hage
        simp [findVuln, hmatch, hcond]

/-- If no vulnerable category matches, the vulnerable loop returns nothing. -/
theorem findVuln_none (allLower ages : List String) :
    ∀ cats : List (String × List String),
      (∀ p ∈ cats, matchingOf allLower p.2 = []) →
      findVuln allLower ages cats = none := by
  intro cats
  induction cats with
  | nil => intro _; rfl
  | cons head tail ih =>
      obtain ⟨vt, kws⟩ := head
      intro h
      have hh : matchingOf allLower kws = [] :=
        h (vt, kws) (List.mem_cons_self _ _)
      simp [findVuln, hh, ih (fun p hp => h p (List.mem_cons_of_mem _ hp))]

/-- Whatever the normal-context loop returns is not vulnerable. -/
theorem findNormal_not_vulnerable (allLower : List String) :
    ∀ (cats : List (String × List String)) (r : VulnResult),
      findNormal allLower cats = some r → r.is_vulnerable = false := by
  intro cats
  induction cats with
  | nil => intro r h; cases h
  | cons head tail ih =>
      obtain ⟨nt, kws⟩ := head
      intro r h
      by_cases hmatch : matchingOf allLower kws = []
      · refine ih r ?_
        have step : findNormal allLower ((nt, kws) :: tail) =
            findNormal allLower tail := by
          simp [findNormal, hmatch]
        rw [step] at h; exact h
      · have h' : some (⟨false, none, nt, 80/100,
            matchingOf allLower kws⟩ : VulnResult) = some r := by
          have step : findNormal allLower ((nt, kws) :: tail) =
              some ⟨false, none, nt, 80/100, matchingOf allLower kws⟩ := by
            simp [findNormal, hmatch]
          rw [step] at h; exact h
        injection h' with h''
        rw [← h'']

/-- C4, counterexample: an age group of `child` with no vulnerable keyword
match (tags `street` only) is classified as *not* vulnerable — the code
reaches the normal-context loop and matches `public_space`, so the age group
alone does not force the `minor` type. -/
theorem C4_child_age_without_keyword_not_vulnerable :
    (analyze_vulnerability ["street"] [] [] ["child"]).is_vulnerable = false ∧
    (analyze_vulnerability ["street"] [] [] ["child"]).vulnerability_type
      = none := by
  constructor <;> rfl

/-- C4 (amended): when the consolidated age groups contain `child` or
`teenager` *and at least one vulnerable-context keyword matches the
(lowercased) indicators*, the classification returns vulnerable with type
`minor` and confidence `0.95`, regardless of which category matched; when no
vulnerable keyword matches at all, the age group alone does not make the
verdict vulnerable. -/
theorem C4_minor_forced_only_with_keyword_match
    (tags envs inds ages : List String)
    (hage : "child" ∈ ages ∨ "teenager" ∈ ages) :
    ((∃ p ∈ VULNERABLE_CONTEXTS,
        matchingOf ((tags ++ envs ++ inds).map (fun i => lowerStr i)) p.2 ≠ []) →
      (analyze_vulnerability tags envs inds ages).is_vulnerable = true ∧
      (analyze_vulnerability tags envs inds ages).vulnerability_type
        = some "minor" ∧
      (analyze_vulnerability tags envs inds ages).confidence = 95/100) ∧
    ((∀ p ∈ VULNERABLE_CONTEXTS,
        matchingOf ((tags ++ envs ++ inds).map (fun i => lowerStr i)) p.2 = []) →
      (analyze_vulnerability tags envs inds ages).is_vulnerable = false) := by
  constructor
  · intro hmatch
    obtain ⟨m, hfind⟩ := findVuln_minor_of_match
      ((tags ++ envs ++ inds).map (fun i => lowerStr i)) ages hage
      VULNERABLE_CONTEXTS hmatch
    refine ⟨?_, ?_, ?_⟩ <;> simp only [analyze_vulnerability, hfind]
  · intro hnone
    have hfind := findVuln_none
      ((tags ++ envs ++ inds).map (fun i => lowerStr i)) ages
      VULNERABLE_CONTEXTS hnone
    simp only [analyze_vulnerability, hfind]
    cases hnorm : findNormal
        ((tags ++ envs ++ inds).map (fun i => lowerStr i)) NORMAL_CONTEXTS with
    | none => rfl
    | some r =>
        exact findNormal_not_vulnerable _ NORMAL_CONTEXTS r hnorm

/-- C4 witness: the amended theorem applied to a child in a hospital — the
`medical` category matches first, yet the verdict type is `minor`. -/
theorem C4_minor_forced_only_with_keyword_match_witness :
    (analyze_vulnerability ["hospital"] [] [] ["child"]).is_vulnerable = true ∧
    (analyze_vulnerability ["hospital"] [] [] ["child"]).vulnerability_type
      = some "minor" ∧
    (analyze_vulnerability ["hospital"] [] [] ["child"]).confidence = 95/100 :=
  (C4_minor_forced_only_with_keyword_match ["hospital"] [] [] ["child"]
      (Or.inl (by decide))).1
    ⟨("medical",
      ["hospital", "medical_setting", "clinic", "healthcare", "patient",
       "hospital_gown", "medical", "doctor", "surgery", "emergency_room"]),
     by decide, by decide⟩

end C4

/-! ## C5 — mock responses of the vision client -/

section C5
open GemmaClient

/-- Every branch of the witness mock has exactly the prompt's schema and a
confidence of at most `0.85`. -/
theorem mock_visual_description_fields (path : String) :
    pyKeys (mock_visual_description path) = witnessSchema ∧
    getQD (mock_visual_description path) "confidence" 0 ≤ 85/100 := by
  unfold mock_visual_description
  split_ifs <;>
    exact ⟨rfl, by
      first
      | exact (by norm_num : (85 : ℚ)/100 ≤ 85/100)
      | exact (by norm_num : (80 : ℚ)/100 ≤ 85/100)
      | exact (by norm_num : (75 : ℚ)/100 ≤ 85/100)⟩

/-- Every branch of the classification mock has exactly the prompt's schema
and a confidence of at most `0.85`. -/
theorem classify_mock_fields (path : String) :
    pyKeys (classify_mock path) = classifySchema ∧
    getQD (classify_mock path) "confidence" 0 ≤ 85/100 := by
  unfold classify_mock
  split_ifs <;>
    exact ⟨rfl, by
      first
      | exact (by norm_num : (85 : ℚ)/100 ≤ 85/100)
      | exact (by norm_num : (80 : ℚ)/100 ≤ 85/100)
      | exact (by norm_num : (7 : ℚ)/10 ≤ 85/100)⟩

/-- C5, counterexample: the beach-keyword branch of the witness mock reports
confidence `0.85`, above the claimed bound `0.75` (the classification mock's
fingerprint/ID/card branches equally report `0.85`). -/
theorem C5_mock_confidence_exceeds_075 :
    ¬ getQD (mock_visual_description "beach.jpg") "confidence" 0 ≤ 75/100 := by
  have h : getQD (mock_visual_description "beach.jpg") "confidence" 0
      = 85/100 := rfl
  rw [h]; norm_num

/-- C5 (amended): in mock mode both the witness mode and the
sensitive-content classification return responses whose field set matches
the real response schema fixed by the prompts, and whose confidence is at
most `0.85` (not `0.75`: four branches report `0.85`). -/
theorem C5_mock_shape_and_confidence_bound (path : String) :
    pyKeys (mock_visual_description path) = witnessSchema ∧
    getQD (mock_visual_description path) "confidence" 0 ≤ 85/100 ∧
    pyKeys (classify_mock path) = classifySchema ∧
    getQD (classify_mock path) "confidence" 0 ≤ 85/100 :=
  ⟨(mock_visual_description_fields path).1,
   (mock_visual_description_fields path).2,
   (classify_mock_fields path).1, (classify_mock_fields path).2⟩

end C5

/-! ## C8 — progress broker queues -/

section C8
open ProgressManager

/-- C8, counterexample: the queue `subscribe` creates is `asyncio.Queue()`
with the default `maxsize = 0`, i.e. *unbounded* — not a bounded queue of
capacity at least 32. -/
theorem C8_subscribe_queue_not_bounded :
    (subscribeQueue ℕ).maxsize = 0 ∧
    ¬ (subscribeQueue ℕ).boundedAtLeast32 := by
  constructor
  · rfl
  · intro h
    exact absurd h.1 (by simp [subscribeQueue])

/-- C8 (amended): subscriber queues are *unbounded* (`maxsize = 0`), so a
broadcast enqueue always completes immediately — the emitter is never
stalled, but the 1 s deadline can never fire on a full queue and no slow
subscriber is ever dropped by backpressure: every subscriber receives every
event, appended FIFO. -/
theorem C8_broadcast_never_drops {ε : Type}
    (subs : List (PyQueue ε)) (e : ε)
    (h : ∀ q ∈ subs, q.maxsize = 0) :
    (subscribe subs).2.maxsize = 0 ∧
    broadcast subs e = subs.map (fun q => { q with items := q.items ++ [e] }) := by
  refine ⟨rfl, ?_⟩
  induction subs with
  | nil => rfl
  | cons q rest ih =>
      have hq : q.maxsize = 0 := h q (List.mem_cons_self _ _)
      have hrest := ih (fun r hr => h r (List.mem_cons_of_mem _ hr))
      have hput : putWithDeadline q e = some { q with items := q.items ++ [e] } := by
        simp [putWithDeadline, PyQueue.isFull, hq]
      show ((q :: rest).map (fun x => putWithDeadline x e)).reduceOption = _
      rw [List.map_cons, hput, List.reduceOption_cons_of_some, List.map_cons]
      exact congrArg _ hrest

/-- C8 witness: one freshly subscribed queue receives the event and
survives. -/
theorem C8_broadcast_never_drops_witness :
    (subscribe ([] : List (PyQueue ℕ))).2.maxsize = 0 ∧
    broadcast [subscribeQueue ℕ] (7 : ℕ) =
      [{ subscribeQueue ℕ with items := [7] }] :=
  C8_broadcast_never_drops [subscribeQueue ℕ] 7 (by simp [subscribeQueue])

end C8

/-! ## Sorting helper lemmas (for C3) -/

section SortLemmas

/-- Membership through one insertion step. -/
theorem mem_insertStr {b a : String} {l : List String} :
    b ∈ insertStr a l ↔ b = a ∨ b ∈ l := by
  induction l with
  | nil => simp [insertStr]
  | cons c cs ih =>
      by_cases h : strLe a c = true
      · simp [insertStr, h]
      · simp only [insertStr, if_neg h, List.mem_cons, ih]
        tauto

/-- `sortStrs` preserves membership. -/
theorem mem_sortStrs {a : String} {l : List String} :
    a ∈ sortStrs l ↔ a ∈ l := by
  induction l with
  | nil => simp [sortStrs]
  | cons b bs ih => simp [sortStrs, mem_insertStr, ih]

/-- Code-point comparison is asymmetric. -/
theorem strLtL_asymm :
    ∀ x y : List Char, strLtL x y = true → strLtL y x = false := by
  intro x
  induction x with
  | nil => intro y h; cases y <;> simp_all [strLtL]
  | cons a as ih =>
      intro y h
      cases y with
      | nil => simp [strLtL] at h
      | cons b bs =>
          by_cases hab : a.toNat < b.toNat
          · have hba : ¬ b.toNat < a.toNat := by omega
            simp [strLtL, hba, hab]
          · by_cases hba : b.toNat < a.toNat
            · simp [strLtL, hab, hba] at h
            · simp only [strLtL, if_neg hab, if_neg hba] at h ⊢
              exact ih bs h

/-- Python string `<=` is total. -/
theorem strLe_total (a b : String) : strLe a b = true ∨ strLe b a = true := by
  by_cases h : strLtL b.data a.data = true
  · right
    have := strLtL_asymm b.data a.data h
    simp [strLe, this]
  · left
    simp only [strLe, Bool.not_eq_true'] at h ⊢
    simp [Bool.not_eq_true] at h
    simp [h]

/-- Insertion preserves adjacent sortedness. -/
theorem insertStr_chain (a : String) :
    ∀ l : List String, List.Chain' (fun x y => strLe x y = true) l →
      List.Chain' (fun x y => strLe x y = true) (insertStr a l) := by
  intro l
  induction l with
  | nil => intro _; simp [insertStr]
  | cons b bs ih =>
      intro h
      by_cases hab : strLe a b = true
      · rw [insertStr, if_pos hab]
        exact List.chain'_cons.mpr ⟨hab, h⟩
      · have hba : strLe b a = true := (strLe_total a b).resolve_left hab
        have htail := ih h.tail
        rw [insertStr, if_neg hab]
        cases bs with
        | nil =>
            rw [insertStr]
            exact List.chain'_cons.mpr ⟨hba, List.chain'_singleton a⟩
        | cons c cs =>
            by_cases hac : strLe a c = true
            · rw [insertStr, if_pos hac]
              exact List.chain'_cons.mpr ⟨hba, by rwa [insertStr, if_pos hac] at htail⟩
            · rw [insertStr, if_neg hac]
              exact List.chain'_cons.mpr ⟨(List.chain'_cons.mp h).1,
                by rwa [insertStr, if_neg hac] at htail⟩

/-- The string sort is ascending (adjacent-sorted in Python's `<=`). -/
theorem sortStrs_chain (l : List String) :
    List.Chain' (fun x y => strLe x y = true) (sortStrs l) := by
  induction l with
  | nil => simp [sortStrs]
  | cons b bs ih => exact insertStr_chain b (sortStrs bs) ih

/-- Insertion preserves distinctness. -/
theorem insertStr_nodup {a : String} {l : List String} (ha : a ∉ l)
    (h : l.Nodup) : (insertStr a l).Nodup := by
  induction l with
  | nil => simp [insertStr]
  | cons b bs ih =>
      by_cases hab : strLe a b = true
      · rw [insertStr, if_pos hab]
        refine List.nodup_cons.mpr ⟨ha, h⟩
      · rw [insertStr, if_neg hab]
        have hb := List.nodup_cons.mp h
        refine List.nodup_cons.mpr ⟨?_, ih (fun hm => ha (List.mem_cons_of_mem _ hm)) hb.2⟩
        intro hmem
        rcases mem_insertStr.mp hmem with h1 | h1
        · exact ha (h1 ▸ List.mem_cons_self _ _)
        · exact hb.1 h1

/-- The string sort preserves distinctness. -/
theorem sortStrs_nodup {l : List String} (h : l.Nodup) :
    (sortStrs l).Nodup := by
  induction l with
  | nil => simp [sortStrs]
  | cons b bs ih =>
      have hb := List.nodup_cons.mp h
      exact insertStr_nodup (fun hm => hb.1 (mem_sortStrs.mp hm)) (ih hb.2)

/-- `pySortedSet` produces the canonical sorted duplicate-free list of the
members of its input. -/
theorem pySortedSet_spec (l : List String) :
    List.Chain' (fun x y => strLe x y = true) (pySortedSet l) ∧
    (pySortedSet l).Nodup ∧
    ∀ a, a ∈ pySortedSet l ↔ a ∈ l := by
  refine ⟨sortStrs_chain _, sortStrs_nodup l.nodup_dedup, fun a => ?_⟩
  rw [pySortedSet, mem_sortStrs, List.mem_dedup]

end SortLemmas

/-! ## C3 — temporal-consensus aggregation -/

section C3
open ConsensusAgent

/-- The two length guards of `aggregate` fail for two or more results. -/
theorem aggregate_eq_of_two_le (results : List PyDict)
    (h2 : 2 ≤ results.length) :
    aggregate results =
      validate
        [("is_violation",
          .vb (decide (0 < (results.filter
            (fun r => getBoolD r "is_violation" false)).length))),
         ("severity", .vs
           (if 0 < (results.filter
               (fun r => getBoolD r "is_violation" false)).length then
              if 3 ≤ (results.filter
                  (fun r => getBoolD r "is_violation" false)).length then
                "critical"
              else if 2 ≤ (results.filter
                  (fun r => getBoolD r "is_violation" false)).length then
                "high"
              else getStrD ((results.filter
                  (fun r => getBoolD r "is_violation" false)).headD [])
                "severity" "medium"
            else "none")),
         ("confidence", .vq (round3
           ((results.map (fun r => getQD r "confidence" 0)).sum /
             ((results.map (fun r => getQD r "confidence" 0)).length : ℚ)))),
         ("max_confidence", .vq (round3
           (pyMaxQ (results.map (fun r => getQD r "confidence" 0))))),
         ("violated_articles", .vlist (pySortedSet
           (results.flatMap (fun r => getStrListD r "violated_articles")))),
         ("recommended_action", .vs
           ((results.filter (fun r => getBoolD r "is_violation" false)).foldl
             (fun best r =>
               let action := getStrD r "recommended_action" "none"
               if action_priority best < action_priority action then action
               else best)
             "none")),
         ("reasoning", .vs "synthesis"),
         ("frames_with_violation", .vq ((results.filter
           (fun r => getBoolD r "is_violation" false)).length : ℚ)),
         ("detection_type",
          match pyget (results.headD []) "detection_type" with
          | some v => v
          | none => .vnone)] := by
  have h0 : ¬ results.length = 0 := by omega
  have h1 : ¬ results.length = 1 := by omega
  rw [aggregate, if_neg h0, if_neg h1]

/-- `validate` on the aggregate shape appends only the two missing defaults,
leaving every present field in place. -/
theorem validate_aggregate_shape (v1 : Bool) (sev : String) (conf mconf : ℚ)
    (arts : List String) (act : String) (reas : String) (fwv : ℚ)
    (dt : PyVal) :
    validate
      [("is_violation", .vb v1), ("severity", .vs sev),
       ("confidence", .vq conf), ("max_confidence", .vq mconf),
       ("violated_articles", .vlist arts), ("recommended_action", .vs act),
       ("reasoning", .vs reas), ("frames_with_violation", .vq fwv),
       ("detection_type", dt)] =
      [("is_violation", .vb v1), ("severity", .vs sev),
       ("confidence", .vq conf), ("max_confidence", .vq mconf),
       ("violated_articles", .vlist arts), ("recommended_action", .vs act),
       ("reasoning", .vs reas), ("frames_with_violation", .vq fwv),
       ("detection_type", dt), ("description", .vs ""),
       ("frames_analyzed", .vq 1)] := by
  simp [validate, validateDefaults, pyset, pyget]

/-- A list filters to something nonempty iff a member satisfies the
predicate. -/
theorem filter_pos_iff {α : Type} (p : α → Bool) (l : List α) :
    0 < (l.filter p).length ↔ ∃ a ∈ l, p a = true := by
  rw [List.length_pos]
  constructor
  · intro h
    obtain ⟨a, ha⟩ := List.exists_mem_of_ne_nil _ h
    exact ⟨a, (List.mem_filter.mp ha).1, (List.mem_filter.mp ha).2⟩
  · rintro ⟨a, ha, hp⟩
    intro hnil
    have := List.mem_filter.mpr ⟨ha, hp⟩
    rw [hnil] at this
    cases this

/-- The action fold returns `none` or one of the folded actions. -/
theorem action_fold_mem (l : List PyDict) :
    ∀ init : String,
      (l.foldl (fun best r =>
        let action := getStrD r "recommended_action" "none"
        if action_priority best < action_priority action then action
        else best) init) = init ∨
      ∃ r ∈ l, (l.foldl (fun best r =>
        let action := getStrD r "recommended_action" "none"
        if action_priority best < action_priority action then action
        else best) init) = getStrD r "recommended_action" "none" := by
  induction l with
  | nil => intro init; exact Or.inl rfl
  | cons r rs ih =>
      intro init
      simp only [List.foldl_cons]
      by_cases h : action_priority init <
          action_priority (getStrD r "recommended_action" "none")
      · rw [if_pos h]
        rcases ih (getStrD r "recommended_action" "none") with h1 | ⟨r', hr', h1⟩
        · exact Or.inr ⟨r, List.mem_cons_self _ _, h1⟩
        · exact Or.inr ⟨r', List.mem_cons_of_mem _ hr', h1⟩
      · rw [if_neg h]
        rcases ih init with h1 | ⟨r', hr', h1⟩
        · exact Or.inl h1
        · exact Or.inr ⟨r', List.mem_cons_of_mem _ hr', h1⟩

/-- The action fold dominates the priority of the seed and of every folded
action. -/
theorem action_fold_ub (l : List PyDict) :
    ∀ init : String,
      action_priority init ≤ action_priority
        (l.foldl (fun best r =>
          let action := getStrD r "recommended_action" "none"
          if action_priority best < action_priority action then action
          else best) init) ∧
      ∀ r ∈ l, action_priority (getStrD r "recommended_action" "none") ≤
        action_priority (l.foldl (fun best r =>
          let action := getStrD r "recommended_action" "none"
          if action_priority best < action_priority action then action
          else best) init) := by
  induction l with
  | nil => intro init; exact ⟨le_refl _, by simp⟩
  | cons r rs ih =>
      intro init
      simp only [List.foldl_cons]
      by_cases h : action_priority init <
          action_priority (getStrD r "recommended_action" "none")
      · rw [if_pos h]
        obtain ⟨h1, h2⟩ := ih (getStrD r "recommended_action" "none")
        refine ⟨le_trans (le_of_lt h) h1, fun r' hr' => ?_⟩
        rcases List.mem_cons.mp hr' with rfl | hr'
        · exact h1
        · exact h2 r' hr'
      · rw [if_neg h]
        obtain ⟨h1, h2⟩ := ih init
        refine ⟨h1, fun r' hr' => ?_⟩
        rcases List.mem_cons.mp hr' with rfl | hr'
        · exact le_trans (le_of_not_lt h) h1
        · exact h2 r' hr'

/-- C3, counterexample: a *singleton* verdict list is passed through
`_validate` unchanged by `aggregate` — the claim fails for it on two counts:
`violated_articles` is returned as given (`["9", "6"]`), not as the sorted
union (`["6", "9"]`), and no `max_confidence` field is recorded at all. -/
theorem C3_singleton_not_aggregated :
    pyget (aggregate [[("is_violation", .vb true), ("severity", .vs "high"),
        ("violated_articles", .vlist ["9", "6"]), ("confidence", .vq (9/10)),
        ("recommended_action", .vs "blur"),
        ("detection_type", .vs "license_plate")]]) "violated_articles"
      = some (.vlist ["9", "6"]) ∧
    pyget (aggregate [[("is_violation", .vb true), ("severity", .vs "high"),
        ("violated_articles", .vlist ["9", "6"]), ("confidence", .vq (9/10)),
        ("recommended_action", .vs "blur"),
        ("detection_type", .vs "license_plate")]]) "max_confidence" = none ∧
    pySortedSet ["9", "6"] = ["6", "9"] ∧
    (["9", "6"] : List String) ≠ ["6", "9"] := by
  refine ⟨rfl, rfl, ?_, by decide⟩
  rfl

/-- Lookup of `is_violation` in the validated aggregate shape. -/
theorem aggShape_is_violation (v1 : Bool) (sev : String) (conf mconf : ℚ)
    (arts : List String) (act reas : String) (fwv : ℚ) (dt : PyVal) :
    getBoolD
      [("is_violation", .vb v1), ("severity", .vs sev),
       ("confidence", .vq conf), ("max_confidence", .vq mconf),
       ("violated_articles", .vlist arts), ("recommended_action", .vs act),
       ("reasoning", .vs reas), ("frames_with_violation", .vq fwv),
       ("detection_type", dt), ("description", .vs ""),
       ("frames_analyzed", .vq 1)] "is_violation" false = v1 := rfl

/-- Lookup of `severity` in the validated aggregate shape. -/
theorem aggShape_severity (v1 : Bool) (sev : String) (conf mconf : ℚ)
    (arts : List String) (act reas : String) (fwv : ℚ) (dt : PyVal) :
    getStrD
      [("is_violation", .vb v1), ("severity", .vs sev),
       ("confidence", .vq conf), ("max_confidence", .vq mconf),
       ("violated_articles", .vlist arts), ("recommended_action", .vs act),
       ("reasoning", .vs reas), ("frames_with_violation", .vq fwv),
       ("detection_type", dt), ("description", .vs ""),
       ("frames_analyzed", .vq 1)] "severity" "" = sev := rfl

/-- Lookup of `confidence` in the validated aggregate shape. -/
theorem aggShape_confidence (v1 : Bool) (sev : String) (conf mconf : ℚ)
    (arts : List String) (act reas : String) (fwv : ℚ) (dt : PyVal) :
    getQD
      [("is_violation", .vb v1), ("severity", .vs sev),
       ("confidence", .vq conf), ("max_confidence", .vq mconf),
       ("violated_articles", .vlist arts), ("recommended_action", .vs act),
       ("reasoning", .vs reas), ("frames_with_violation", .vq fwv),
       ("detection_type", dt), ("description", .vs ""),
       ("frames_analyzed", .vq 1)] "confidence" 0 = conf := rfl

/-- Lookup of `max_confidence` in the validated aggregate shape. -/
theorem aggShape_max_confidence (v1 : Bool) (sev : String) (conf mconf : ℚ)
    (arts : List String) (act reas : String) (fwv : ℚ) (dt : PyVal) :
    pyget
      [("is_violation", .vb v1), ("severity", .vs sev),
       ("confidence", .vq conf), ("max_confidence", .vq mconf),
       ("violated_articles", .vlist arts), ("recommended_action", .vs act),
       ("reasoning", .vs reas), ("frames_with_violation", .vq fwv),
       ("detection_type", dt), ("description", .vs ""),
       ("frames_analyzed", .vq 1)] "max_confidence" = some (.vq mconf) := rfl

/-- Lookup of `violated_articles` in the validated aggregate shape. -/
theorem aggShape_articles (v1 : Bool) (sev : String) (conf mconf : ℚ)
    (arts : List String) (act reas : String) (fwv : ℚ) (dt : PyVal) :
    pyget
      [("is_violation", .vb v1), ("severity", .vs sev),
       ("confidence", .vq conf), ("max_confidence", .vq mconf),
       ("violated_articles", .vlist arts), ("recommended_action", .vs act),
       ("reasoning", .vs reas), ("frames_with_violation", .vq fwv),
       ("detection_type", dt), ("description", .vs ""),
       ("frames_analyzed", .vq 1)] "violated_articles"
      = some (.vlist arts) := rfl

/-- Lookup of `recommended_action` in the validated aggregate shape. -/
theorem aggShape_action (v1 : Bool) (sev : String) (conf mconf : ℚ)
    (arts : List String) (act reas : String) (fwv : ℚ) (dt : PyVal) :
    getStrD
      [("is_violation", .vb v1), ("severity", .vs sev),
       ("confidence", .vq conf), ("max_confidence", .vq mconf),
       ("violated_articles", .vlist arts), ("recommended_action", .vs act),
       ("reasoning", .vs reas), ("frames_with_violation", .vq fwv),
       ("detection_type", dt), ("description", .vs ""),
       ("frames_analyzed", .vq 1)] "recommended_action" "" = act := rfl

/-- C3 (amended): for *two or more* per-frame verdicts, `aggregate` returns:
`is_violation` true iff some frame verdict is violating; severity `critical`
for three or more violating frames, `high` for exactly two, the single
violating frame's severity for exactly one; `violated_articles` the sorted
duplicate-free union of the per-frame articles; `recommended_action` of
maximal protection priority (mask > pixelate > blur > none) among the
violating frames' actions; `confidence` the mean of the per-frame
confidences *rounded half-even to three decimals*, and `max_confidence`
their maximum, equally rounded.  (A singleton list bypasses all of this —
see the counterexample.) -/
theorem C3_aggregate_two_or_more (results : List PyDict)
    (h2 : 2 ≤ results.length) :
    (getBoolD (aggregate results) "is_violation" false = true ↔
      ∃ r ∈ results, getBoolD r "is_violation" false = true) ∧
    (3 ≤ (results.filter (fun r => getBoolD r "is_violation" false)).length →
      getStrD (aggregate results) "severity" "" = "critical") ∧
    ((results.filter (fun r => getBoolD r "is_violation" false)).length = 2 →
      getStrD (aggregate results) "severity" "" = "high") ∧
    ((results.filter (fun r => getBoolD r "is_violation" false)).length = 1 →
      getStrD (aggregate results) "severity" "" =
        getStrD ((results.filter
          (fun r => getBoolD r "is_violation" false)).headD [])
          "severity" "medium") ∧
    (∃ arts, pyget (aggregate results) "violated_articles"
        = some (.vlist arts) ∧
      List.Chain' (fun x y => strLe x y = true) arts ∧ arts.Nodup ∧
      ∀ a, a ∈ arts ↔ ∃ r ∈ results, a ∈ getStrListD r "violated_articles") ∧
    ((getStrD (aggregate results) "recommended_action" "" = "none" ∨
      ∃ r ∈ results.filter (fun r => getBoolD r "is_violation" false),
        getStrD (aggregate results) "recommended_action" "" =
          getStrD r "recommended_action" "none") ∧
      ∀ r ∈ results.filter (fun r => getBoolD r "is_violation" false),
        action_priority (getStrD r "recommended_action" "none") ≤
          action_priority (getStrD (aggregate results)
            "recommended_action" "")) ∧
    (getQD (aggregate results) "confidence" 0 =
      round3 ((results.map (fun r => getQD r "confidence" 0)).sum /
        (results.length : ℚ))) ∧
    (pyget (aggregate results) "max_confidence" =
      some (.vq (round3
        (pyMaxQ (results.map (fun r => getQD r "confidence" 0)))))) := by
  rw [aggregate_eq_of_two_le results h2, validate_aggregate_shape,
      aggShape_is_violation, aggShape_severity, aggShape_confidence,
      aggShape_max_confidence, aggShape_articles, aggShape_action]
  refine ⟨?_, ?_, ?_, ?_, ?_, ⟨?_, ?_⟩, ?_, ?_⟩
  · rw [decide_eq_true_iff]
    exact filter_pos_iff _ _
  · intro h3
    rw [if_pos (by omega :
        0 < (results.filter (fun r => getBoolD r "is_violation" false)).length),
      if_pos h3]
  · intro heq
    rw [if_pos (by omega :
        0 < (results.filter (fun r => getBoolD r "is_violation" false)).length),
      if_neg (by omega :
        ¬ 3 ≤ (results.filter
          (fun r => getBoolD r "is_violation" false)).length),
      if_pos (by omega :
        2 ≤ (results.filter (fun r => getBoolD r "is_violation" false)).length)]
  · intro heq
    rw [if_pos (by omega :
        0 < (results.filter (fun r => getBoolD r "is_violation" false)).length),
      if_neg (by omega :
        ¬ 3 ≤ (results.filter
          (fun r => getBoolD r "is_violation" false)).length),
      if_neg (by omega :
        ¬ 2 ≤ (results.filter
          (fun r => getBoolD r "is_violation" false)).length)]
  · refine ⟨pySortedSet
      (results.flatMap (fun r => getStrListD r "violated_articles")),
      rfl, (pySortedSet_spec _).1, (pySortedSet_spec _).2.1, fun a => ?_⟩
    rw [(pySortedSet_spec _).2.2 a, List.mem_flatMap]
  · exact action_fold_mem _ "none"
  · exact fun r hr => (action_fold_ub _ "none").2 r hr
  · rw [List.length_map]
  · rfl

/-- C3 witness: two license-plate verdicts with articles `["9","6"]` and
`["17"]`, confidences `0.9` and `0.95` — the aggregate escalates to `high`,
sorts the union, and rounds the mean `0.925`. -/
theorem C3_aggregate_two_or_more_witness :
    getStrD (aggregate
      [[("is_violation", .vb true), ("severity", .vs "high"),
        ("violated_articles", .vlist ["9", "6"]), ("confidence", .vq (9/10)),
        ("recommended_action", .vs "pixelate")],
       [("is_violation", .vb true), ("severity", .vs "high"),
        ("violated_articles", .vlist ["17"]), ("confidence", .vq (95/100)),
        ("recommended_action", .vs "blur")]]) "severity" "" = "high" ∧
    pyget (aggregate
      [[("is_violation", .vb true), ("severity", .vs "high"),
        ("violated_articles", .vlist ["9", "6"]), ("confidence", .vq (9/10)),
        ("recommended_action", .vs "pixelate")],
       [("is_violation", .vb true), ("severity", .vs "high"),
        ("violated_articles", .vlist ["17"]), ("confidence", .vq (95/100)),
        ("recommended_action", .vs "blur")]]) "max_confidence"
      = some (.vq (round3 (pyMaxQ [9/10, 95/100]))) := by
  refine ⟨(C3_aggregate_two_or_more _ (by decide)).2.2.1 ?_, ?_⟩
  · rfl
  · have h := (C3_aggregate_two_or_more
      [[("is_violation", .vb true), ("severity", .vs "high"),
        ("violated_articles", .vlist ["9", "6"]), ("confidence", .vq (9/10)),
        ("recommended_action", .vs "pixelate")],
       [("is_violation", .vb true), ("severity", .vs "high"),
        ("violated_articles", .vlist ["17"]), ("confidence", .vq (95/100)),
        ("recommended_action", .vs "blur")]] (by decide)).2.2.2.2.2.2.2
    exact h

end C3

/-! ## Dict and sorting lemmas for C9 -/

section NDictLemmas

/-- Lookup into a cons cell of a dict. -/
theorem nget_cons {β : Type} (k : ℕ) (v : β) (d : NDict β) (f : ℕ) :
    nget? ((k, v) :: d) f = if k = f then some v else nget? d f := by
  by_cases h : k = f <;> simp [nget?, List.find?, h]

/-- Lookup through one dict assignment. -/
theorem nget_nset {β : Type} (d : NDict β) (k : ℕ) (v : β) (f : ℕ) :
    nget? (nset d k v) f = if k = f then some v else nget? d f := by
  induction d with
  | nil =>
      show nget? [(k, v)] f = _
      rw [nget_cons]
  | cons p rest ih =>
      obtain ⟨k', v'⟩ := p
      by_cases hk : k' = k
      · subst hk
        simp only [nset, if_pos rfl, eq_self_iff_true, if_true]
        rw [nget_cons, nget_cons]
        by_cases hf : k' = f <;> simp [hf]
      · simp only [nset, if_neg hk]
        rw [nget_cons, ih, nget_cons]
        by_cases hf : k' = f
        · have hnkf : ¬ k = f := fun hc => hk (by rw [hc, hf])
          simp [hf, hnkf]
        · simp [hf]

/-- A key absent from a dict looks up to nothing. -/
theorem nget_eq_none {β : Type} (d : NDict β) (f : ℕ)
    (h : f ∉ d.map (·.1)) : nget? d f = none := by
  induction d with
  | nil => rfl
  | cons p rest ih =>
      obtain ⟨k, v⟩ := p
      simp only [List.map_cons, List.mem_cons] at h
      push_neg at h
      have hk : ¬ k = f := fun hc => h.1 hc.symm
      rw [nget_cons, if_neg hk]
      exact ih h.2

/-- Folding keyed writes over a key list: a key in the list gets its write,
any other key is untouched. -/
theorem nget_fold_writes {β : Type} (vfun : ℕ → β) (f : ℕ) :
    ∀ (ks : List ℕ) (acc : NDict β),
      nget? (ks.foldl (fun d k => nset d k (vfun k)) acc) f =
        if f ∈ ks then some (vfun f) else nget? acc f := by
  intro ks
  induction ks with
  | nil => intro acc; simp
  | cons k ks' ih =>
      intro acc
      rw [List.foldl_cons, ih]
      by_cases hmem : f ∈ ks'
      · simp [hmem]
      · by_cases hkf : k = f
        · subst hkf
          simp [hmem, nget_nset]
        · have hfk : ¬ f = k := fun hc => hkf hc.symm
          simp [hmem, hfk, nget_nset, hkf]

/-- Membership in the gap's interior key list. -/
theorem mem_gap_keys (f1 gap f : ℕ) :
    f ∈ (List.range (gap - 1)).map (fun i => f1 + 1 + i) ↔
      f1 < f ∧ f < f1 + gap := by
  simp only [List.mem_map, List.mem_range]
  constructor
  · rintro ⟨i, hi, rfl⟩; omega
  · intro h
    exact ⟨f - f1 - 1, by omega, by omega⟩

/-- Lookup inside a filled gap. -/
theorem fillGap_lookup_in (orig acc : NDict VideoAnonymizer.IBox)
    (f1 f2 : ℕ) (b1 b2 : VideoAnonymizer.IBox)
    (hb1 : nget? orig f1 = some b1) (hb2 : nget? orig f2 = some b2)
    (hgap1 : 1 < f2 - f1) (hgap10 : f2 - f1 ≤ 10)
    (f : ℕ) (hf1 : f1 < f) (hf2 : f < f2) :
    nget? (VideoAnonymizer.fillGap orig acc f1 f2) f =
      some (VideoAnonymizer.lerpBox b1 b2 f1 (f2 - f1) f) := by
  rw [VideoAnonymizer.fillGap, if_pos ⟨hgap1, hgap10⟩, hb1, hb2]
  rw [nget_fold_writes]
  rw [if_pos ((mem_gap_keys f1 (f2 - f1) f).mpr ⟨hf1, by omega⟩)]

/-- A fill writes nothing outside the gap's interior. -/
theorem fillGap_lookup_out (orig acc : NDict VideoAnonymizer.IBox)
    (f1 f2 f : ℕ) (hf : ¬ (f1 < f ∧ f < f2)) :
    nget? (VideoAnonymizer.fillGap orig acc f1 f2) f = nget? acc f := by
  rw [VideoAnonymizer.fillGap]
  by_cases hcond : 1 < f2 - f1 ∧ f2 - f1 ≤ 10
  · rw [if_pos hcond]
    cases h1 : nget? orig f1 with
    | none => rfl
    | some b1 =>
        cases h2 : nget? orig f2 with
        | none => rfl
        | some b2 =>
            rw [nget_fold_writes]
            rw [if_neg]
            intro hmem
            obtain ⟨ha, hb⟩ := (mem_gap_keys f1 (f2 - f1) f).mp hmem
            exact hf ⟨ha, by omega⟩
  · rw [if_neg hcond]

/-- A gap longer than 10 frames is not filled at all. -/
theorem fillGap_big (orig acc : NDict VideoAnonymizer.IBox) (f1 f2 : ℕ)
    (h : 10 < f2 - f1) : VideoAnonymizer.fillGap orig acc f1 f2 = acc := by
  rw [VideoAnonymizer.fillGap, if_neg]
  intro hc
  omega

/-- Membership through `insertNat`. -/
theorem mem_insertNat {b a : ℕ} {l : List ℕ} :
    b ∈ insertNat a l ↔ b = a ∨ b ∈ l := by
  induction l with
  | nil => simp [insertNat]
  | cons c cs ih =>
      by_cases h : a ≤ c
      · simp [insertNat, h]
      · simp only [insertNat, if_neg h, List.mem_cons, ih]
        tauto

/-- Insertion into a `≤`-sorted `ℕ` list keeps it sorted. -/
theorem insertNat_pairwise (a : ℕ) {l : List ℕ}
    (h : l.Pairwise (· ≤ ·)) : (insertNat a l).Pairwise (· ≤ ·) := by
  induction l with
  | nil => simp [insertNat]
  | cons b bs ih =>
      rw [List.pairwise_cons] at h
      by_cases hab : a ≤ b
      · rw [insertNat, if_pos hab]
        refine List.pairwise_cons.mpr ⟨?_, List.pairwise_cons.mpr h⟩
        intro c hc
        rcases List.mem_cons.mp hc with rfl | hc
        · exact hab
        · exact le_trans hab (h.1 c hc)
      · rw [insertNat, if_neg hab]
        refine List.pairwise_cons.mpr ⟨?_, ih h.2⟩
        intro c hc
        rcases mem_insertNat.mp hc with rfl | hc
        · omega
        · exact h.1 c hc

/-- `sortNat` preserves membership. -/
theorem mem_sortNat {a : ℕ} {l : List ℕ} : a ∈ sortNat l ↔ a ∈ l := by
  induction l with
  | nil => simp [sortNat]
  | cons b bs ih => simp [sortNat, mem_insertNat, ih]

/-- `sortNat` sorts ascending. -/
theorem sortNat_pairwise (l : List ℕ) : (sortNat l).Pairwise (· ≤ ·) := by
  induction l with
  | nil => simp [sortNat]
  | cons b bs ih => exact insertNat_pairwise b ih

/-- `insertNat` keeps distinctness. -/
theorem insertNat_nodup {a : ℕ} {l : List ℕ} (ha : a ∉ l) (h : l.Nodup) :
    (insertNat a l).Nodup := by
  induction l with
  | nil => simp [insertNat]
  | cons b bs ih =>
      by_cases hab : a ≤ b
      · rw [insertNat, if_pos hab]
        exact List.nodup_cons.mpr ⟨ha, h⟩
      · rw [insertNat, if_neg hab]
        have hb := List.nodup_cons.mp h
        refine List.nodup_cons.mpr
          ⟨?_, ih (fun hm => ha (List.mem_cons_of_mem _ hm)) hb.2⟩
        intro hmem
        rcases mem_insertNat.mp hmem with h1 | h1
        · exact ha (h1 ▸ List.mem_cons_self _ _)
        · exact hb.1 h1

/-- `sortNat` keeps distinctness. -/
theorem sortNat_nodup {l : List ℕ} (h : l.Nodup) : (sortNat l).Nodup := by
  induction l with
  | nil => simp [sortNat]
  | cons b bs ih =>
      have hb := List.nodup_cons.mp h
      exact insertNat_nodup (fun hm => hb.1 (mem_sortNat.mp hm)) (ih hb.2)

/-- On a duplicate-free input the sort is strictly increasing. -/
theorem sortNat_pairwise_lt {l : List ℕ} (h : l.Nodup) :
    (sortNat l).Pairwise (· < ·) := by
  have h1 := sortNat_pairwise l
  have h2 : (sortNat l).Pairwise (· ≠ ·) := sortNat_nodup h
  exact (h1.and h2).imp (fun hab => lt_of_le_of_ne hab.1 hab.2)

end NDictLemmas

/-! ## C9 — interpolation pre-pass -/

section C9
open VideoAnonymizer

/-- The head of a sorted cons is a lower bound of the whole cons. -/
theorem head_le_of_pairwise_lt {b c : ℕ} {rest : List ℕ}
    (hpw : (b :: rest).Pairwise (· < ·)) (hc : c ∈ b :: rest) : b ≤ c := by
  rcases List.mem_cons.mp hc with rfl | hc
  · exact le_refl _
  · exact le_of_lt (List.rel_of_pairwise_cons hpw hc)

/-- No untouched frame between an adjacent pair of a strictly sorted list is
itself a member of the list. -/
theorem adjacent_no_between (x y f : ℕ) (hx : x < f) (hy : f < y) :
    ∀ s : List ℕ, s.Pairwise (· < ·) → (x, y) ∈ s.zip s.tail → f ∉ s := by
  intro s
  induction s with
  | nil => intro _ h; cases h
  | cons a s' ih =>
      intro hpw hmem
      cases s' with
      | nil => cases hmem
      | cons b rest =>
          simp only [List.tail_cons, List.zip_cons_cons, List.mem_cons] at hmem
          rcases hmem with heq | hmem
          · rw [Prod.mk.injEq] at heq
            obtain ⟨rfl, rfl⟩ := heq
            intro hf
            rcases List.mem_cons.mp hf with rfl | hf
            · omega
            · have := head_le_of_pairwise_lt (List.pairwise_cons.mp hpw).2 hf
              omega
          · intro hf
            have hpw' := (List.pairwise_cons.mp hpw).2
            have hf' : f ∈ b :: rest := by
              rcases List.mem_cons.mp hf with rfl | hf
              · exfalso
                have hxmem : x ∈ b :: rest := (List.of_mem_zip hmem).1
                have := (List.pairwise_cons.mp hpw).1 x hxmem
                omega
              · exact hf
            exact ih hpw' (by simpa using hmem) hf'

/-- Folding the fills over the pair list leaves `f` untouched when every
pair either avoids `f`'s interior position or spans a gap longer than 10. -/
theorem foldPairs_lookup_out (orig : NDict IBox) (f : ℕ) :
    ∀ (s : List ℕ) (acc : NDict IBox),
      (∀ x y, (x, y) ∈ s.zip s.tail → ¬ (x < f ∧ f < y) ∨ 10 < y - x) →
      nget? ((s.zip s.tail).foldl
        (fun d p => fillGap orig d p.1 p.2) acc) f = nget? acc f := by
  intro s
  induction s with
  | nil => intro acc _; rfl
  | cons a s' ih =>
      intro acc hp
      cases s' with
      | nil => rfl
      | cons b rest =>
          simp only [List.tail_cons, List.zip_cons_cons, List.foldl_cons]
          have hstep : nget? (fillGap orig acc a b) f = nget? acc f := by
            rcases hp a b (by simp) with h | h
            · exact fillGap_lookup_out orig acc a b f h
            · rw [fillGap_big orig acc a b h]
          have hrest := ih (fillGap orig acc a b)
            (fun x y hxy => hp x y
              (by
                simp only [List.tail_cons, List.zip_cons_cons, List.mem_cons]
                exact Or.inr (by simpa using hxy)))
          simp only [List.tail_cons] at hrest
          rw [hrest, hstep]

/-- Lookup of an interior frame of a short adjacent gap, through the whole
pair fold: the gap's own fill wins and no later pair touches it. -/
theorem foldPairs_lookup_in (orig : NDict IBox) (x y f : ℕ)
    (b1 b2 : IBox) (hb1 : nget? orig x = some b1) (hb2 : nget? orig y = some b2)
    (hx : x < f) (hy : f < y) (hgap10 : y - x ≤ 10) :
    ∀ (s : List ℕ) (acc : NDict IBox), s.Pairwise (· < ·) →
      (x, y) ∈ s.zip s.tail →
      nget? ((s.zip s.tail).foldl
        (fun d p => fillGap orig d p.1 p.2) acc) f =
        some (lerpBox b1 b2 x (y - x) f) := by
  intro s
  induction s with
  | nil => intro acc _ h; cases h
  | cons a s' ih =>
      intro acc hpw hmem
      cases s' with
      | nil => cases hmem
      | cons b rest =>
          simp only [List.tail_cons, List.zip_cons_cons, List.mem_cons] at hmem
          simp only [List.tail_cons, List.zip_cons_cons, List.foldl_cons]
          rcases hmem with heq | hmem
          · rw [Prod.mk.injEq] at heq
            obtain ⟨rfl, rfl⟩ := heq
            have hout := foldPairs_lookup_out orig f (y :: rest)
              (fillGap orig acc x y)
              (fun x' y' hxy => by
                left
                have hx' : x' ∈ y :: rest := (List.of_mem_zip hxy).1
                have := head_le_of_pairwise_lt (List.pairwise_cons.mp hpw).2 hx'
                omega)
            simp only [List.tail_cons] at hout
            rw [hout]
            exact fillGap_lookup_in orig acc x y b1 b2 hb1 hb2 (by omega)
              hgap10 f hx hy
          · have := ih (fillGap orig acc a b)
              (List.pairwise_cons.mp hpw).2 (by simpa using hmem)
            simpa using this

/-- Interior frames of a long adjacent gap stay untouched through the whole
pair fold. -/
theorem foldPairs_lookup_big (orig : NDict IBox) (x y f : ℕ)
    (hx : x < f) (hy : f < y) (hgap : 10 < y - x) :
    ∀ (s : List ℕ) (acc : NDict IBox), s.Pairwise (· < ·) →
      (x, y) ∈ s.zip s.tail →
      nget? ((s.zip s.tail).foldl
        (fun d p => fillGap orig d p.1 p.2) acc) f = nget? acc f := by
  intro s
  induction s with
  | nil => intro acc _ h; cases h
  | cons a s' ih =>
      intro acc hpw hmem
      cases s' with
      | nil => cases hmem
      | cons b rest =>
          simp only [List.tail_cons, List.zip_cons_cons, List.mem_cons] at hmem
          simp only [List.tail_cons, List.zip_cons_cons, List.foldl_cons]
          rcases hmem with heq | hmem
          · rw [Prod.mk.injEq] at heq
            obtain ⟨rfl, rfl⟩ := heq
            have hout := foldPairs_lookup_out orig f (y :: rest)
              (fillGap orig acc x y)
              (fun x' y' hxy => by
                left
                have hx' : x' ∈ y :: rest := (List.of_mem_zip hxy).1
                have := head_le_of_pairwise_lt (List.pairwise_cons.mp hpw).2 hx'
                omega)
            simp only [List.tail_cons] at hout
            rw [hout, fillGap_big orig acc x y hgap]
          · have hrec := ih (fillGap orig acc a b)
              (List.pairwise_cons.mp hpw).2 (by simpa using hmem)
            simp only [List.tail_cons] at hrec
            rw [hrec]
            refine fillGap_lookup_out orig acc a b f ?_
            have hxmem : x ∈ b :: rest := (List.of_mem_zip hmem).1
            have hbx : b ≤ x :=
              head_le_of_pairwise_lt (List.pairwise_cons.mp hpw).2 hxmem
            omega

/-- C9 (confirmed): for every anonymization action with distinct covered
frames, and every pair `(f1, f2)` of *consecutive* covered frames, the
pre-pass fills every intervening frame `f` with the truncated linear
interpolation of the endpoint boxes whenever `f2 - f1 <= 10` (so a gap of
exactly 10 is filled), and leaves every intervening frame uncovered whenever
`f2 - f1 > 10` (so a gap of exactly 11 is not filled). -/
theorem C9_interpolation_fills_short_gaps_only (a : GAction)
    (hnd : (a.bboxes.map (·.1)).Nodup)
    (f1 f2 : ℕ) (b1 b2 : IBox)
    (hadj : (f1, f2) ∈ (sortNat (a.bboxes.map (·.1))).zip
      (sortNat (a.bboxes.map (·.1))).tail)
    (hb1 : nget? a.bboxes f1 = some b1) (hb2 : nget? a.bboxes f2 = some b2)
    (f : ℕ) (hf1 : f1 < f) (hf2 : f < f2) :
    (f2 - f1 ≤ 10 →
      nget? (interpolate_bboxes a).bboxes f =
        some (lerpBox b1 b2 f1 (f2 - f1) f)) ∧
    (10 < f2 - f1 →
      nget? (interpolate_bboxes a).bboxes f = none) := by
  have hpw : (sortNat (a.bboxes.map (·.1))).Pairwise (· < ·) :=
    sortNat_pairwise_lt hnd
  have hlen : ¬ (sortNat (a.bboxes.map (·.1))).length < 2 := by
    have h2 : f2 ∈ (sortNat (a.bboxes.map (·.1))).tail := (List.of_mem_zip hadj).2
    cases hs : sortNat (a.bboxes.map (·.1)) with
    | nil => rw [hs] at h2; cases h2
    | cons u us =>
        rw [hs] at h2
        simp only [List.tail_cons] at h2
        cases us with
        | nil => cases h2
        | cons w ws => simp
  have hinterp : (interpolate_bboxes a).bboxes =
      ((sortNat (a.bboxes.map (·.1))).zip
        (sortNat (a.bboxes.map (·.1))).tail).foldl
        (fun d p => fillGap a.bboxes d p.1 p.2) a.bboxes := by
    rw [interpolate_bboxes, if_neg hlen]
  constructor
  · intro h10
    rw [hinterp]
    exact foldPairs_lookup_in a.bboxes f1 f2 f b1 b2 hb1 hb2 hf1 hf2 h10 _
      a.bboxes hpw hadj
  · intro h10
    rw [hinterp]
    rw [foldPairs_lookup_big a.bboxes f1 f2 f hf1 hf2 h10 _ a.bboxes hpw hadj]
    refine nget_eq_none _ f ?_
    intro hmem
    exact adjacent_no_between f1 f2 f hf1 hf2 _ hpw hadj
      (mem_sortNat.mpr hmem)

/-- C9 witness: a gap of exactly 10 frames (covered frames 1 and 11) is
filled at frame 6; a gap of exactly 11 (covered frames 1 and 12) is not. -/
theorem C9_interpolation_fills_short_gaps_only_witness :
    nget? (interpolate_bboxes
      { type := "blur", track_id := 1,
        bboxes := [(1, ⟨0, 0, 10, 10⟩), (11, ⟨20, 0, 30, 10⟩)],
        masks := [] }).bboxes 6 =
      some (lerpBox ⟨0, 0, 10, 10⟩ ⟨20, 0, 30, 10⟩ 1 10 6) ∧
    nget? (interpolate_bboxes
      { type := "blur", track_id := 1,
        bboxes := [(1, ⟨0, 0, 10, 10⟩), (12, ⟨20, 0, 30, 10⟩)],
        masks := [] }).bboxes 6 = none := by
  constructor
  · exact (C9_interpolation_fills_short_gaps_only
      { type := "blur", track_id := 1,
        bboxes := [(1, ⟨0, 0, 10, 10⟩), (11, ⟨20, 0, 30, 10⟩)], masks := [] }
      (by decide) 1 11 ⟨0, 0, 10, 10⟩ ⟨20, 0, 30, 10⟩ (by decide) rfl rfl
      6 (by decide) (by decide)).1 (by decide)
  · exact (C9_interpolation_fills_short_gaps_only
      { type := "blur", track_id := 1,
        bboxes := [(1, ⟨0, 0, 10, 10⟩), (12, ⟨20, 0, 30, 10⟩)], masks := [] }
      (by decide) 1 12 ⟨0, 0, 10, 10⟩ ⟨20, 0, 30, 10⟩ (by decide) rfl rfl
      6 (by decide) (by decide)).2 (by decide)

end C9

/-! ## C10 — GPU size gate -/

section C10
open VideoAnonymizer

/-- Blending with an all-zero mask leaves the input unchanged. -/
theorem blur_region_zero_mask (gaussBlur : Image → ℕ → ℚ → Image)
    (tensor : Image) (x1 y1 x2 y2 : ℕ) (kernel_size : ℕ) (sigma : ℚ) :
    blur_region gaussBlur tensor x1 y1 x2 y2 (some (fun _ _ => 0))
      kernel_size sigma = tensor := by
  rw [blur_region]
  by_cases hz : y2 - y1 = 0 ∨ x2 - x1 = 0
  · rw [if_pos hz]
  · rw [if_neg hz]
    funext yy xx
    by_cases hin : inRegion yy xx y1 y2 x1 x2 <;> simp [hin]

/-- Pixelate-blending with an all-zero mask leaves the input unchanged. -/
theorem pixelate_region_zero_mask (pixelOp : Image → ℕ → ℕ → Bool → Image)
    (tensor : Image) (x1 y1 x2 y2 : ℕ) (blocks track_id : ℕ)
    (add_noise : Bool) :
    pixelate_region pixelOp tensor x1 y1 x2 y2 (some (fun _ _ => 0))
      blocks track_id add_noise = tensor := by
  rw [pixelate_region]
  by_cases hz : y2 - y1 < 2 ∨ x2 - x1 < 2
  · rw [if_pos hz]
  · rw [if_neg hz]
    funext yy xx
    by_cases hin : inRegion yy xx y1 y2 x1 x2 <;> simp [hin]

/-- C10 (confirmed): on the GPU effects path, a blur or pixelate action
whose raw box at a frame covers less than `0.001` of the frame area is
suppressed entirely: the gate in `_create_mask_tensor` fires *before* the
polygon lookup, returning an all-zero mask (even when the action has no
polygon for that frame), and blending with the zero mask leaves every pixel
of the frame unchanged. -/
theorem C10_small_region_suppressed (gaussBlur : Image → ℕ → ℚ → Image)
    (pixelOp : Image → ℕ → ℕ → Bool → Image) (fillPoly : List ℚ → Image)
    (scrambleOp : Image → ℕ → ℕ → ℕ → ℕ → ℕ → Image)
    (tensor : Image) (W H : ℕ) (a : GAction) (frame_idx : ℕ) (box : IBox)
    (htype : a.type = "blur" ∨ a.type = "pixelate")
    (hbox : nget? a.bboxes frame_idx = some box)
    (hratio : (((box.x2 - box.x1 : ℤ) : ℚ) * ((box.y2 - box.y1 : ℤ) : ℚ)) /
      ((H : ℚ) * (W : ℚ)) < 1/1000) :
    create_mask_tensor fillPoly a frame_idx W H = some (fun _ _ => 0) ∧
    apply_action_gpu gaussBlur pixelOp fillPoly scrambleOp tensor W H a
      frame_idx = tensor := by
  have hmask : create_mask_tensor fillPoly a frame_idx W H =
      some (fun _ _ => 0) := by
    have hg : decide ((((box.x2 - box.x1 : ℤ) : ℚ) *
        ((box.y2 - box.y1 : ℤ) : ℚ)) / ((H : ℚ) * (W : ℚ)) < 1/1000) =
        true := decide_eq_true hratio
    simp only [create_mask_tensor, hbox]
    rw [if_pos hg]
  refine ⟨hmask, ?_⟩
  simp only [apply_action_gpu, hbox]
  by_cases hdeg : (max 0 (min box.x2 (W : ℤ))).toNat ≤
      (max 0 (min box.x1 (W : ℤ))).toNat ∨
      (max 0 (min box.y2 (H : ℤ))).toNat ≤ (max 0 (min box.y1 (H : ℤ))).toNat
  · rw [if_pos hdeg]
  · rw [if_neg hdeg]
    rcases htype with ht | ht
    · rw [if_pos ht, hmask, blur_region_zero_mask]
    · have hnb : ¬ a.type = "blur" := by rw [ht]; decide
      rw [if_neg hnb, if_pos ht, hmask, pixelate_region_zero_mask]

/-- C10 witness: a 2×2 box in a 100×100 frame (ratio `1/2500`), blur action
with no polygon — the frame passes through unchanged. -/
theorem C10_small_region_suppressed_witness :
    create_mask_tensor (fun _ => fun _ _ => 1)
      { type := "blur", track_id := 1,
        bboxes := [(5, ⟨0, 0, 2, 2⟩)], masks := [] } 5 100 100
      = some (fun _ _ => 0) ∧
    apply_action_gpu (fun img _ _ => img) (fun img _ _ _ => img)
      (fun _ => fun _ _ => 1) (fun img _ _ _ _ _ => img)
      (fun (y x : ℕ) => (y : ℚ) + x) 100 100
      { type := "blur", track_id := 1,
        bboxes := [(5, ⟨0, 0, 2, 2⟩)], masks := [] } 5
      = (fun (y x : ℕ) => (y : ℚ) + x) :=
  C10_small_region_suppressed (fun img _ _ => img) (fun img _ _ _ => img)
    (fun _ => fun _ _ => 1) (fun img _ _ _ _ _ => img)
    (fun (y x : ℕ) => (y : ℚ) + x) 100 100
    { type := "blur", track_id := 1,
      bboxes := [(5, ⟨0, 0, 2, 2⟩)], masks := [] } 5 ⟨0, 0, 2, 2⟩
    (Or.inl rfl) rfl (by norm_num)

end C10

/-! ## Float-rounding lemmas and C6 -/

section C6
open Detection

/-- The one-step unfolding of `frexpAux`, with the lets reduced. -/
theorem frexpAux_succ (fuel : ℕ) (x : ℚ) :
    frexpAux (fuel + 1) x =
      if x < 1 then
        ((frexpAux fuel (2 * x)).1, (frexpAux fuel (2 * x)).2 - 1)
      else if 2 ≤ x then
        ((frexpAux fuel (x / 2)).1, (frexpAux fuel (x / 2)).2 + 1)
      else (x, 0) := rfl

/-- `frexpAux` is exact: the pair multiplies back to the input. -/
theorem frexpAux_exact :
    ∀ (fuel : ℕ) (x : ℚ),
      (frexpAux fuel x).1 * (2 : ℚ) ^ (frexpAux fuel x).2 = x := by
  intro fuel
  induction fuel with
  | zero =>
      intro x
      show x * (2 : ℚ) ^ (0 : ℤ) = x
      rw [zpow_zero, mul_one]
  | succ n ih =>
      intro x
      rw [frexpAux_succ]
      by_cases h1 : x < 1
      · rw [if_pos h1]
        have hih := ih (2 * x)
        show (frexpAux n (2 * x)).1 *
            (2 : ℚ) ^ ((frexpAux n (2 * x)).2 - 1) = x
        calc (frexpAux n (2 * x)).1 * (2 : ℚ) ^ ((frexpAux n (2 * x)).2 - 1)
            = (frexpAux n (2 * x)).1 *
                (2 : ℚ) ^ (frexpAux n (2 * x)).2 / 2 := by
              rw [zpow_sub₀ (by norm_num : (2 : ℚ) ≠ 0), zpow_one,
                mul_div_assoc]
          _ = (2 * x) / 2 := by rw [hih]
          _ = x := by ring
      · rw [if_neg h1]
        by_cases h2 : 2 ≤ x
        · rw [if_pos h2]
          have hih := ih (x / 2)
          show (frexpAux n (x / 2)).1 *
              (2 : ℚ) ^ ((frexpAux n (x / 2)).2 + 1) = x
          calc (frexpAux n (x / 2)).1 * (2 : ℚ) ^ ((frexpAux n (x / 2)).2 + 1)
              = (frexpAux n (x / 2)).1 *
                  (2 : ℚ) ^ (frexpAux n (x / 2)).2 * 2 := by
                rw [zpow_add₀ (by norm_num : (2 : ℚ) ≠ 0), zpow_one, mul_assoc]
            _ = (x / 2) * 2 := by rw [hih]
            _ = x := by ring
        · rw [if_neg h2]
          show x * (2 : ℚ) ^ (0 : ℤ) = x
          rw [zpow_zero, mul_one]

/-- For inputs below 2 the exponent never goes positive. -/
theorem frexpAux_exp_nonpos :
    ∀ (fuel : ℕ) (x : ℚ), x < 2 → (frexpAux fuel x).2 ≤ 0 := by
  intro fuel
  induction fuel with
  | zero => intro x _; exact le_refl 0
  | succ n ih =>
      intro x hx
      rw [frexpAux_succ]
      by_cases h1 : x < 1
      · rw [if_pos h1]
        show (frexpAux n (2 * x)).2 - 1 ≤ 0
        have := ih (2 * x) (by linarith)
        omega
      · rw [if_neg h1, if_neg (by linarith : ¬ (2 : ℚ) ≤ x)]

/-- For inputs below 1 the exponent is at most `-1`. -/
theorem frexpAux_exp_le_neg_one (fuel : ℕ) (x : ℚ) (hx : x < 1) :
    (frexpAux (fuel + 1) x).2 ≤ -1 := by
  rw [frexpAux_succ, if_pos hx]
  show (frexpAux fuel (2 * x)).2 - 1 ≤ -1
  have := frexpAux_exp_nonpos fuel (2 * x) (by linarith)
  omega

/-- For inputs below `1/2` the exponent is at most `-2`. -/
theorem frexpAux_exp_le_neg_two (fuel : ℕ) (x : ℚ) (hx : x < 1/2) :
    (frexpAux (fuel + 1 + 1) x).2 ≤ -2 := by
  rw [frexpAux_succ, if_pos (by linarith : x < 1)]
  show (frexpAux (fuel + 1) (2 * x)).2 - 1 ≤ -2
  have := frexpAux_exp_le_neg_one fuel (2 * x) (by linarith)
  omega

/-- Inputs already in `[1, 2)` are fixed by `frexpAux`. -/
theorem frexpAux_fixed (fuel : ℕ) (y : ℚ) (h1 : 1 ≤ y) (h2 : y < 2) :
    frexpAux fuel y = (y, 0) := by
  cases fuel with
  | zero => rfl
  | succ n =>
      rw [frexpAux_succ, if_neg (by linarith : ¬ y < 1),
        if_neg (by linarith : ¬ (2 : ℚ) ≤ y)]

/-- Inputs in `[1/2, 1)` normalise in one doubling. -/
theorem frexpAux_half (fuel : ℕ) (x : ℚ) (h1 : 1/2 ≤ x) (h2 : x < 1) :
    frexpAux (fuel + 1) x = (2 * x, -1) := by
  rw [frexpAux_succ, if_pos h2,
    frexpAux_fixed fuel (2 * x) (by linarith) (by linarith)]
  rfl

/-- The decisive bound: the `float32` rounding of any value in `[0, 7/10]`
falls strictly below the binary64 value of `1.0 - 0.3`.  (At `7/10` itself
this is the inequality `float32(0.7) = 11744051/2^24 < float64(0.7)`; the
strict `<` of the tracker acceptance test therefore passes whenever the
gate `iou >= 0.3` was passed.) -/
theorem f32round_lt_oneMinus (x : ℚ) (h0 : 0 ≤ x) (h7 : x ≤ 7/10) :
    f32round x < float64_1_minus_0_3 := by
  rw [f32round]
  by_cases hz : x ≤ 0
  · rw [if_pos hz]
    rw [float64_1_minus_0_3]
    positivity
  · rw [if_neg hz]
    push_neg at hz
    show ((rnd ((frexpAux 64 x).1 * 2 ^ (23 : ℕ)) : ℤ) : ℚ) *
        (2 : ℚ) ^ ((frexpAux 64 x).2 - 23) < float64_1_minus_0_3
    by_cases hhalf : 1/2 ≤ x
    · have hx1 : x < 1 := by linarith
      have hfe : frexpAux 64 x = (2 * x, -1) := frexpAux_half 63 x hhalf hx1
      rw [hfe]
      show ((rnd (2 * x * 2 ^ (23 : ℕ)) : ℤ) : ℚ) *
          (2 : ℚ) ^ ((-1 : ℤ) - 23) < float64_1_minus_0_3
      have hxx : 2 * x * (2 : ℚ) ^ (23 : ℕ) = 16777216 * x := by
        norm_num
        ring
      have hr : rnd (2 * x * 2 ^ (23 : ℕ)) ≤ 11744051 := by
        rw [rnd]
        have hlt52 : (2 * x * 2 ^ (23 : ℕ) + 1/2 : ℚ) <
            ((11744052 : ℤ) : ℚ) := by
          rw [hxx]
          push_cast
          linarith
        have := Int.floor_lt.mpr hlt52
        omega
      have hpos : (0 : ℚ) < (2 : ℚ) ^ ((-1 : ℤ) - 23) := by positivity
      calc ((rnd (2 * x * 2 ^ (23 : ℕ)) : ℤ) : ℚ) * (2 : ℚ) ^ ((-1 : ℤ) - 23)
          ≤ (11744051 : ℚ) * (2 : ℚ) ^ ((-1 : ℤ) - 23) := by
            apply mul_le_mul_of_nonneg_right _ (le_of_lt hpos)
            exact_mod_cast hr
        _ < float64_1_minus_0_3 := by
            have h24 : ((-1 : ℤ) - 23) = -((24 : ℕ) : ℤ) := by norm_num
            rw [h24, zpow_neg, zpow_natCast, float64_1_minus_0_3]
            norm_num
    · push_neg at hhalf
      set p := frexpAux 64 x with hp
      have hexact : p.1 * (2 : ℚ) ^ p.2 = x := frexpAux_exact 64 x
      have hexp : p.2 ≤ -2 := frexpAux_exp_le_neg_two 62 x hhalf
      have hfloor : ((rnd (p.1 * 2 ^ (23 : ℕ)) : ℤ) : ℚ) ≤
          p.1 * 2 ^ (23 : ℕ) + 1/2 := by
        rw [rnd]
        exact Int.floor_le _
      have hppos : (0 : ℚ) < (2 : ℚ) ^ (p.2 - 23) := by positivity
      have step1 : ((rnd (p.1 * 2 ^ (23 : ℕ)) : ℤ) : ℚ) *
          (2 : ℚ) ^ (p.2 - 23) ≤
          (p.1 * 2 ^ (23 : ℕ) + 1/2) * (2 : ℚ) ^ (p.2 - 23) :=
        mul_le_mul_of_nonneg_right hfloor (le_of_lt hppos)
      have hpow : (2 : ℚ) ^ (23 : ℕ) * (2 : ℚ) ^ (p.2 - 23) =
          (2 : ℚ) ^ p.2 := by
        have he : ((23 : ℕ) : ℤ) + (p.2 - 23) = p.2 := by push_cast; ring
        rw [← zpow_natCast (2 : ℚ) 23,
          ← zpow_add₀ (by norm_num : (2 : ℚ) ≠ 0), he]
      have hsplit : (p.1 * 2 ^ (23 : ℕ) + 1/2) * (2 : ℚ) ^ (p.2 - 23) =
          x + (1/2) * (2 : ℚ) ^ (p.2 - 23) := by
        rw [← hexact]
        calc (p.1 * 2 ^ (23 : ℕ) + 1/2) * (2 : ℚ) ^ (p.2 - 23)
            = p.1 * ((2 : ℚ) ^ (23 : ℕ) * (2 : ℚ) ^ (p.2 - 23)) +
                (1/2) * (2 : ℚ) ^ (p.2 - 23) := by ring
          _ = p.1 * (2 : ℚ) ^ p.2 + (1/2) * (2 : ℚ) ^ (p.2 - 23) := by
              rw [hpow]
      have hulp : (2 : ℚ) ^ (p.2 - 23) ≤ (2 : ℚ) ^ (-25 : ℤ) := by
        apply zpow_le_zpow_right₀ (by norm_num : (1 : ℚ) ≤ 2)
        omega
      have h25 : (2 : ℚ) ^ (-25 : ℤ) = 1 / 2 ^ (25 : ℕ) := by
        have h : (-25 : ℤ) = -((25 : ℕ) : ℤ) := by norm_num
        rw [h, zpow_neg, zpow_natCast, one_div]
      have hb : (1/2 : ℚ) + (1/2) * (1 / 2 ^ (25 : ℕ)) <
          float64_1_minus_0_3 := by
        rw [float64_1_minus_0_3]
        norm_num
      have hval : ((rnd (p.1 * 2 ^ (23 : ℕ)) : ℤ) : ℚ) *
          (2 : ℚ) ^ (p.2 - 23) ≤ x + (1/2) * (1 / 2 ^ (25 : ℕ)) := by
        rw [hsplit] at step1
        have := hulp
        rw [h25] at this
        nlinarith [step1, this]
      calc ((rnd (p.1 * 2 ^ (23 : ℕ)) : ℤ) : ℚ) * (2 : ℚ) ^ (p.2 - 23)
          ≤ x + (1/2) * (1 / 2 ^ (25 : ℕ)) := hval
        _ < float64_1_minus_0_3 := by linarith

/-- `max(a, b)` dominates its first argument. -/
theorem le_qmax_left (a b : ℚ) : a ≤ qmax a b := by
  rw [qmax]
  split_ifs with h <;> linarith

/-- `max(a, b)` dominates its second argument. -/
theorem le_qmax_right (a b : ℚ) : b ≤ qmax a b := by
  rw [qmax]
  split_ifs with h <;> linarith

/-- `min(a, b)` is below its first argument. -/
theorem qmin_le_left (a b : ℚ) : qmin a b ≤ a := by
  rw [qmin]
  split_ifs with h <;> linarith

/-- `min(a, b)` is below its second argument. -/
theorem qmin_le_right (a b : ℚ) : qmin a b ≤ b := by
  rw [qmin]
  split_ifs with h <;> linarith

/-- For boxes with positive width and height, `_calculate_iou` lands in
`[0, 1]`. -/
theorem calculate_iou_bounds (bb1 bb2 : BBoxQ)
    (h1x : bb1.x1 < bb1.x2) (h1y : bb1.y1 < bb1.y2)
    (h2x : bb2.x1 < bb2.x2) (h2y : bb2.y1 < bb2.y2) :
    0 ≤ calculate_iou bb1 bb2 ∧ calculate_iou bb1 bb2 ≤ 1 := by
  have hxl1 := le_qmax_left bb1.x1 bb2.x1
  have hxl2 := le_qmax_right bb1.x1 bb2.x1
  have hyt1 := le_qmax_left bb1.y1 bb2.y1
  have hyt2 := le_qmax_right bb1.y1 bb2.y1
  have hxr1 := qmin_le_left bb1.x2 bb2.x2
  have hxr2 := qmin_le_right bb1.x2 bb2.x2
  have hyb1 := qmin_le_left bb1.y2 bb2.y2
  have hyb2 := qmin_le_right bb1.y2 bb2.y2
  rw [calculate_iou]
  show 0 ≤ (if qmin bb1.x2 bb2.x2 < qmax bb1.x1 bb2.x1 ∨
      qmin bb1.y2 bb2.y2 < qmax bb1.y1 bb2.y1 then (0 : ℚ)
    else if 0 < bb1.area + bb2.area -
        (qmin bb1.x2 bb2.x2 - qmax bb1.x1 bb2.x1) *
        (qmin bb1.y2 bb2.y2 - qmax bb1.y1 bb2.y1) then
      (qmin bb1.x2 bb2.x2 - qmax bb1.x1 bb2.x1) *
        (qmin bb1.y2 bb2.y2 - qmax bb1.y1 bb2.y1) /
        (bb1.area + bb2.area -
          (qmin bb1.x2 bb2.x2 - qmax bb1.x1 bb2.x1) *
          (qmin bb1.y2 bb2.y2 - qmax bb1.y1 bb2.y1))
    else 0) ∧ (if qmin bb1.x2 bb2.x2 < qmax bb1.x1 bb2.x1 ∨
      qmin bb1.y2 bb2.y2 < qmax bb1.y1 bb2.y1 then (0 : ℚ)
    else if 0 < bb1.area + bb2.area -
        (qmin bb1.x2 bb2.x2 - qmax bb1.x1 bb2.x1) *
        (qmin bb1.y2 bb2.y2 - qmax bb1.y1 bb2.y1) then
      (qmin bb1.x2 bb2.x2 - qmax bb1.x1 bb2.x1) *
        (qmin bb1.y2 bb2.y2 - qmax bb1.y1 bb2.y1) /
        (bb1.area + bb2.area -
          (qmin bb1.x2 bb2.x2 - qmax bb1.x1 bb2.x1) *
          (qmin bb1.y2 bb2.y2 - qmax bb1.y1 bb2.y1))
    else 0) ≤ 1
  split_ifs with hemp huni
  · norm_num
  · push_neg at hemp
    obtain ⟨hx, hy⟩ := hemp
    have hiw : 0 ≤ qmin bb1.x2 bb2.x2 - qmax bb1.x1 bb2.x1 := by linarith
    have hih : 0 ≤ qmin bb1.y2 bb2.y2 - qmax bb1.y1 bb2.y1 := by linarith
    have hinter1 : (qmin bb1.x2 bb2.x2 - qmax bb1.x1 bb2.x1) *
        (qmin bb1.y2 bb2.y2 - qmax bb1.y1 bb2.y1) ≤ bb1.area := by
      rw [BBoxQ.area]
      apply mul_le_mul (by linarith) (by linarith) hih (by linarith)
    have hinter2 : (qmin bb1.x2 bb2.x2 - qmax bb1.x1 bb2.x1) *
        (qmin bb1.y2 bb2.y2 - qmax bb1.y1 bb2.y1) ≤ bb2.area := by
      rw [BBoxQ.area]
      apply mul_le_mul (by linarith) (by linarith) hih (by linarith)
    constructor
    · exact div_nonneg (mul_nonneg hiw hih) (le_of_lt huni)
    · rw [div_le_one huni]
      linarith
  · norm_num

/-- C6 (confirmed): in the tracker's cost-matrix acceptance, a
track-prediction/detection pair of the same class whose IoU is at least
`3/10` — in particular, exactly `3/10` — passes both the construction gate
(`iou >= self.iou_threshold`, the threshold being the binary64 value of
`0.3`, which is *below* `3/10`) and the assignment acceptance test
(`cost_matrix[row, col] < 1.0 - self.iou_threshold`): the cost `1 - iou`
was stored in a `float32` matrix, and its 24-bit rounding of any value in
`[0, 7/10]` falls strictly below the binary64 value of `1.0 - 0.3`, so the
strict `<` passes. -/
theorem C6_iou_at_threshold_accepted (pred det : BBoxQ)
    (hpx : pred.x1 < pred.x2) (hpy : pred.y1 < pred.y2)
    (hdx : det.x1 < det.x2) (hdy : det.y1 < det.y2)
    (hiou : 3/10 ≤ calculate_iou pred det) :
    acceptCost (costEntry pred det) = true := by
  have hbounds := calculate_iou_bounds pred det hpx hpy hdx hdy
  have hgate : iou_threshold ≤ calculate_iou pred det := by
    rw [iou_threshold, float64_0_3]
    calc (5404319552844595 : ℚ) / 2 ^ 54 ≤ 3/10 := by norm_num
      _ ≤ calculate_iou pred det := hiou
  have hx0 : 0 ≤ 1 - calculate_iou pred det := by linarith [hbounds.2]
  have hx7 : 1 - calculate_iou pred det ≤ 7/10 := by linarith
  have hlt := f32round_lt_oneMinus (1 - calculate_iou pred det) hx0 hx7
  rw [costEntry]
  show acceptCost (if iou_threshold ≤ calculate_iou pred det then
    f32round (1 - calculate_iou pred det) else 1) = true
  rw [if_pos hgate, acceptCost]
  exact decide_eq_true hlt

/-- C6 witness: a 10×10 prediction against a 10×3 detection sharing the top
edge has IoU exactly `30/100 = 3/10`; the pair is accepted. -/
theorem C6_iou_at_threshold_accepted_witness :
    (3/10 : ℚ) ≤ calculate_iou ⟨0, 0, 10, 10, 9/10, 1, none⟩
      ⟨0, 0, 10, 3, 9/10, 1, none⟩ ∧
    acceptCost (costEntry ⟨0, 0, 10, 10, 9/10, 1, none⟩
      ⟨0, 0, 10, 3, 9/10, 1, none⟩) = true := by
  have hiou : (3/10 : ℚ) ≤ calculate_iou ⟨0, 0, 10, 10, 9/10, 1, none⟩
      ⟨0, 0, 10, 3, 9/10, 1, none⟩ := by
    norm_num [calculate_iou, qmax, qmin, BBoxQ.area]
  exact ⟨hiou, C6_iou_at_threshold_accepted _ _ (by norm_num) (by norm_num)
    (by norm_num) (by norm_num) hiou⟩

end C6

/-! ## Tracker/capture bookkeeping lemmas and C2 -/

section C2
open Detection

/-- `Track.predict` does not touch the stored measurement. -/
theorem predictStep_last_bbox (t : Track) :
    t.predictStep.last_bbox = t.last_bbox := rfl

/-- The per-entry predict calls of a cost-matrix row do not touch the
stored measurement either. -/
theorem rowCosts_fst_last_bbox (f : ℕ) :
    ∀ (bs : List BBoxQ) (t : Track),
      (rowCosts t f bs).1.last_bbox = t.last_bbox := by
  intro bs
  induction bs with
  | nil => intro t; rfl
  | cons b rest ih =>
      intro t
      show (rowCosts t.predictStep f rest).1.last_bbox = t.last_bbox
      rw [ih t.predictStep, predictStep_last_bbox]

/-- Every track in the re-merged list comes from the original list or from
the replacement list. -/
theorem mem_mergeBack (cls : String) :
    ∀ (ts repl : List Track) (t : Track),
      t ∈ mergeBack cls ts repl → t ∈ ts ∨ t ∈ repl := by
  intro ts
  induction ts with
  | nil => intro repl t h; cases h
  | cons hd tl ih =>
      intro repl t h
      simp only [mergeBack] at h
      by_cases hc : hd.detection_type = cls
      · rw [if_pos hc] at h
        cases repl with
        | nil =>
            rcases List.mem_cons.mp h with rfl | h2
            · exact Or.inl (List.mem_cons_self _ _)
            · rcases ih [] t h2 with h3 | h3
              · exact Or.inl (List.mem_cons_of_mem _ h3)
              · cases h3
        | cons r rs =>
            rcases List.mem_cons.mp h with rfl | h2
            · exact Or.inr (List.mem_cons_self _ _)
            · rcases ih rs t h2 with h3 | h3
              · exact Or.inl (List.mem_cons_of_mem _ h3)
              · exact Or.inr (List.mem_cons_of_mem _ h3)
      · rw [if_neg hc] at h
        rcases List.mem_cons.mp h with rfl | h2
        · exact Or.inl (List.mem_cons_self _ _)
        · rcases ih repl t h2 with h3 | h3
          · exact Or.inl (List.mem_cons_of_mem _ h3)
          · exact Or.inr h3

/-- The payload of an enumerated element is an element. -/
theorem snd_mem_of_mem_enumFrom {α : Type} :
    ∀ (l : List α) (k : ℕ) (p : ℕ × α), p ∈ l.enumFrom k → p.2 ∈ l := by
  intro l
  induction l with
  | nil => intro k p h; cases h
  | cons a rest ih =>
      intro k p h
      rw [List.enumFrom] at h
      rcases List.mem_cons.mp h with rfl | h2
      · exact List.mem_cons_self _ _
      · exact List.mem_cons_of_mem _ (ih (k + 1) p h2)

/-- The payload of an `enum` element is an element. -/
theorem snd_mem_of_mem_enum {α : Type} (l : List α) (p : ℕ × α)
    (h : p ∈ l.enum) : p.2 ∈ l :=
  snd_mem_of_mem_enumFrom l 0 p h

/-- `getD` returns an element or the default. -/
theorem getD_mem_or_default {α : Type} :
    ∀ (l : List α) (i : ℕ) (d : α), l.getD i d ∈ l ∨ l.getD i d = d := by
  intro l
  induction l with
  | nil => intro i d; exact Or.inr (by cases i <;> rfl)
  | cons a rest ih =>
      intro i d
      cases i with
      | zero => exact Or.inl (by rw [List.getD_cons_zero]; exact List.mem_cons_self _ _)
      | succ j =>
          rw [List.getD_cons_succ]
          rcases ih j d with h | h
          · exact Or.inl (List.mem_cons_of_mem _ h)
          · exact Or.inr h

/-- Every entry of an updated dict is an old entry or the new binding. -/
theorem mem_nset {β : Type} :
    ∀ (d : NDict β) (k : ℕ) (v : β) (q : ℕ × β),
      q ∈ nset d k v → q ∈ d ∨ q = (k, v) := by
  intro d
  induction d with
  | nil =>
      intro k v q h
      rw [nset] at h
      rcases List.mem_cons.mp h with rfl | h2
      · exact Or.inr rfl
      · cases h2
  | cons hd tl ih =>
      intro k v q h
      rw [nset] at h
      by_cases hk : hd.1 = k
      · rw [if_pos hk] at h
        rcases List.mem_cons.mp h with rfl | h2
        · exact Or.inr (by rw [← hk])
        · exact Or.inl (List.mem_cons_of_mem _ h2)
      · rw [if_neg hk] at h
        rcases List.mem_cons.mp h with rfl | h2
        · exact Or.inl (List.mem_cons_self _ _)
        · rcases ih k v q h2 with h3 | h3
          · exact Or.inl (List.mem_cons_of_mem _ h3)
          · exact Or.inr h3

/-- A successful dict lookup is a dict entry. -/
theorem nget?_mem {β : Type} {d : NDict β} {k : ℕ} {v : β}
    (h : nget? d k = some v) : (k, v) ∈ d := by
  rw [nget?] at h
  rcases Option.map_eq_some'.mp h with ⟨q, hfind, hv⟩
  have hq : q ∈ d := List.mem_of_find?_eq_some hfind
  have hk : q.1 = k := by
    have := List.find?_some hfind
    exact of_decide_eq_true this
  have : q = (k, v) := by
    rw [Prod.ext_iff]
    exact ⟨hk, hv⟩
  rw [← this]
  exact hq

/-- Appending to a nonempty history does not change `first_frame`. -/
theorem add_bbox_first_frame (td : TrackedDetection) (b : BBoxQ)
    (h : td.bbox_history ≠ []) :
    (td.add_bbox b).first_frame = td.first_frame := by
  rcases hh : td.bbox_history with _ | ⟨x, xs⟩
  · exact absurd hh h
  · rw [TrackedDetection.add_bbox, TrackedDetection.first_frame,
      TrackedDetection.first_frame]
    rw [hh, List.cons_append]

/-- Appending to an empty history makes the new box the first one. -/
theorem add_bbox_first_frame_empty (td : TrackedDetection) (b : BBoxQ)
    (h : td.bbox_history = []) :
    (td.add_bbox b).first_frame = b.frame := by
  rw [TrackedDetection.add_bbox, TrackedDetection.first_frame, h]
  rfl

/-- `first_frame` obeys any bound all history boxes obey. -/
theorem first_frame_le (td : TrackedDetection) (n : ℕ)
    (h : ∀ b ∈ td.bbox_history, b.frame ≤ n) (hne : td.bbox_history ≠ []) :
    td.first_frame ≤ n := by
  rcases hh : td.bbox_history with _ | ⟨x, xs⟩
  · exact absurd hh hne
  · rw [TrackedDetection.first_frame, hh]
    exact h x (by rw [hh]; exact List.mem_cons_self _ _)

/-- Grouping a detection into the class dict only rearranges payloads. -/
theorem addDet_mem :
    ∀ (acc : List (String × List BBoxQ)) (d : String × BBoxQ)
      (g : String × List BBoxQ), g ∈ addDet acc d → ∀ b ∈ g.2,
      (∃ g0 ∈ acc, b ∈ g0.2) ∨ b = d.2 := by
  intro acc
  induction acc with
  | nil =>
      intro d g hg b hb
      rw [addDet] at hg
      rcases List.mem_cons.mp hg with rfl | h2
      · rcases List.mem_cons.mp hb with rfl | h3
        · exact Or.inr rfl
        · cases h3
      · cases h2
  | cons hd tl ih =>
      intro d g hg b hb
      obtain ⟨c, bs⟩ := hd
      rw [addDet] at hg
      by_cases hc : c = d.1
      · rw [if_pos hc] at hg
        rcases List.mem_cons.mp hg with rfl | h2
        · rcases List.mem_append.mp hb with h3 | h3
          · exact Or.inl ⟨(c, bs), List.mem_cons_self _ _, h3⟩
          · rcases List.mem_cons.mp h3 with rfl | h4
            · exact Or.inr rfl
            · cases h4
        · exact Or.inl ⟨g, List.mem_cons_of_mem _ h2, hb⟩
      · rw [if_neg hc] at hg
        rcases List.mem_cons.mp hg with rfl | h2
        · exact Or.inl ⟨(c, bs), List.mem_cons_self _ _, hb⟩
        · rcases ih d g h2 b hb with ⟨g0, hg0, hb0⟩ | h3
          · exact Or.inl ⟨g0, List.mem_cons_of_mem _ hg0, hb0⟩
          · exact Or.inr h3

/-- Every box in the class-grouped dict is one of the detections. -/
theorem detsByType_sound (P : BBoxQ → Prop) :
    ∀ (dets : List (String × BBoxQ)) (acc : List (String × List BBoxQ)),
      (∀ g ∈ acc, ∀ b ∈ g.2, P b) → (∀ d ∈ dets, P d.2) →
      ∀ g ∈ dets.foldl addDet acc, ∀ b ∈ g.2, P b := by
  intro dets
  induction dets with
  | nil => intro acc hacc _ g hg; exact hacc g hg
  | cons d rest ih =>
      intro acc hacc hdets g hg
      refine ih (addDet acc d) ?_ (fun d' hd' => hdets d' (List.mem_cons_of_mem _ hd')) g hg
      intro g' hg' b hb
      rcases addDet_mem acc d g' hg' b hb with ⟨g0, hg0, hb0⟩ | h3
      · exact hacc g0 hg0 b hb0
      · rw [h3]
        exact hdets d (List.mem_cons_self _ _)

/-- The per-class update only produces tracks whose stored measurement is
an old one, a current detection, or the (frame-0) default box. -/
theorem processClass_bound (m f nid : ℕ) (cls : String)
    (tracks : List Track) (bboxes : List BBoxQ)
    (hts : ∀ t ∈ tracks, t.last_bbox.frame ≤ m)
    (hbs : ∀ b ∈ bboxes, b.frame ≤ m) :
    ∀ t ∈ (processClass tracks nid f cls bboxes).1, t.last_bbox.frame ≤ m := by
  intro t ht
  simp only [processClass] at ht
  split_ifs at ht with h1 h2
  · rcases List.mem_append.mp ht with h3 | h3
    · exact hts t h3
    · rcases List.mem_map.mp h3 with ⟨jb, hjb, rfl⟩
      exact hbs jb.2 (snd_mem_of_mem_enum bboxes jb hjb)
  · exact hts t ht
  · rcases List.mem_append.mp ht with h3 | h3
    · rcases mem_mergeBack cls _ _ t h3 with h4 | h4
      · exact hts t h4
      · rcases List.mem_map.mp h4 with ⟨it, hit, rfl⟩
        have hmem := snd_mem_of_mem_enum _ it hit
        rcases List.mem_map.mp hmem with ⟨row, hrow, hconv⟩
        split
        · rename_i pr hpr
          show (bboxes.getD pr.2 default).frame ≤ m
          rcases getD_mem_or_default bboxes pr.2 default with h5 | h5
          · exact hbs _ h5
          · rw [h5]
            exact Nat.zero_le m
        · rcases List.mem_map.mp hrow with ⟨t0, ht0, hteq⟩
          have hlb : it.2.last_bbox = t0.last_bbox := by
            rw [← hconv, ← hteq]
            exact rowCosts_fst_last_bbox f bboxes t0
          rw [hlb]
          exact hts t0 (List.mem_of_mem_filter ht0)
    · rcases List.mem_map.mp h3 with ⟨ijb, hijb, rfl⟩
      have h4 := snd_mem_of_mem_enum _ ijb hijb
      have h5 := List.mem_of_mem_filter h4
      exact hbs ijb.2.2 (snd_mem_of_mem_enum bboxes ijb.2 h5)

/-- The whole per-frame tracker update keeps all stored measurements, and
every reported box, within any bound obeyed by the previous measurements
and the current detections. -/
theorem trackerUpdate_bound (st : TrackerState)
    (dets : List (String × BBoxQ)) (f m : ℕ)
    (hts : ∀ t ∈ st.tracks, t.last_bbox.frame ≤ m)
    (hd : ∀ d ∈ dets, d.2.frame ≤ m) :
    (∀ t ∈ (trackerUpdate st dets f).1.tracks, t.last_bbox.frame ≤ m) ∧
    ∀ it ∈ (trackerUpdate st dets f).2, it.2.2.frame ≤ m := by
  have haged : ∀ t ∈ st.tracks.map
      (fun t => Track.predictStep { t with age := t.age + 1 }),
      t.last_bbox.frame ≤ m := by
    intro t ht
    rcases List.mem_map.mp ht with ⟨t0, ht0, rfl⟩
    rw [predictStep_last_bbox]
    exact hts t0 ht0
  have hgroups : ∀ g ∈ detsByType dets, ∀ b ∈ g.2, b.frame ≤ m :=
    detsByType_sound (fun b => b.frame ≤ m) dets []
      (fun g hg => absurd hg (List.not_mem_nil g)) hd
  have hfold : ∀ (groups : List (String × List BBoxQ))
      (tracks : List Track) (nid : ℕ),
      (∀ t ∈ tracks, t.last_bbox.frame ≤ m) →
      (∀ g ∈ groups, ∀ b ∈ g.2, b.frame ≤ m) →
      ∀ t ∈ (groups.foldl
        (fun acc g => processClass acc.1 acc.2 f g.1 g.2) (tracks, nid)).1,
        t.last_bbox.frame ≤ m := by
    intro groups
    induction groups with
    | nil => intro tracks nid h _ t ht; exact h t ht
    | cons g rest ih =>
        intro tracks nid h hg t ht
        refine ih (processClass tracks nid f g.1 g.2).1
          (processClass tracks nid f g.1 g.2).2 ?_
          (fun g' hg' => hg g' (List.mem_cons_of_mem _ hg')) t ?_
        · exact processClass_bound m f nid g.1 tracks g.2 h
            (hg g (List.mem_cons_self _ _))
        · exact ht
  have hpr : ∀ t ∈ ((detsByType dets).foldl
      (fun acc g => processClass acc.1 acc.2 f g.1 g.2)
      (st.tracks.map (fun t => Track.predictStep { t with age := t.age + 1 }),
       st.next_id)).1, t.last_bbox.frame ≤ m :=
    hfold (detsByType dets) _ st.next_id haged hgroups
  constructor
  · intro t ht
    have ht2 : t ∈ (((detsByType dets).foldl
        (fun acc g => processClass acc.1 acc.2 f g.1 g.2)
        (st.tracks.map (fun t => Track.predictStep { t with age := t.age + 1 }),
         st.next_id)).1.filter (fun t => ¬ max_age < t.age)) := ht
    exact hpr t (List.mem_of_mem_filter ht2)
  · intro it hit
    rcases List.mem_map.mp hit with ⟨t, ht, rfl⟩
    exact hpr t (List.mem_of_mem_filter ht)

/-- A `_process_batch` body step preserves the tracked-object invariant at
the current frame. -/
theorem processConfirmed_inv (W H : ℕ) (fps : ℚ) (f : ℕ) (st : DetectState)
    (item : ℕ × String × BBoxQ) (hitem : item.2.2.frame ≤ f)
    (hinv : trackedInv f st.tracked) :
    trackedInv f (processConfirmed W H fps f st item).tracked := by
  have hTd : ∀ td1 : TrackedDetection,
      td1 = ((nget? st.tracked item.1).getD
        { track_id := item.1, detection_type := item.2.1 }).add_bbox item.2.2 →
      (∀ b ∈ td1.bbox_history, b.frame ≤ f) ∧ td1.bbox_history ≠ [] ∧
      td1.first_frame ≤ f ∧
      ∀ c ∈ td1.captures, td1.first_frame ≤ c.frame := by
    intro td1 htd1
    rcases hg : nget? st.tracked item.1 with _ | td0
    · rw [hg] at htd1
      have hhist : td1.bbox_history = [item.2.2] := by rw [htd1]; rfl
      have hcaps : td1.captures = [] := by rw [htd1]; rfl
      have hff : td1.first_frame = item.2.2.frame := by
        rw [htd1]
        exact add_bbox_first_frame_empty _ _ rfl
      refine ⟨?_, ?_, ?_, ?_⟩
      · intro b hb
        rw [hhist] at hb
        rcases List.mem_cons.mp hb with rfl | h2
        · exact hitem
        · cases h2
      · rw [hhist]; exact List.cons_ne_nil _ _
      · rw [hff]; exact hitem
      · intro c hc
        rw [hcaps] at hc
        cases hc
    · rw [hg] at htd1
      have hmem := nget?_mem hg
      obtain ⟨hhist0, hne0, hcap0⟩ := hinv (item.1, td0) hmem
      have hhist : td1.bbox_history = td0.bbox_history ++ [item.2.2] := by
        rw [htd1]; rfl
      have hcaps : td1.captures = td0.captures := by rw [htd1]; rfl
      have hff : td1.first_frame = td0.first_frame := by
        rw [htd1]
        exact add_bbox_first_frame _ _ hne0
      refine ⟨?_, ?_, ?_, ?_⟩
      · intro b hb
        rw [hhist] at hb
        rcases List.mem_append.mp hb with h2 | h2
        · exact hhist0 b h2
        · rcases List.mem_cons.mp h2 with rfl | h3
          · exact hitem
          · cases h3
      · rw [hhist]
        intro hcon
        exact List.cons_ne_nil _ _ (List.append_eq_nil.mp hcon).2
      · rw [hff]
        exact first_frame_le td0 f hhist0 hne0
      · intro c hc
        rw [hcaps] at hc
        rw [hff]
        exact hcap0 c hc
  simp only [processConfirmed]
  rcases hcm : (consider_frame st.cm item.1 W H f item.2.2 fps 1).2 with _ | paths
  · intro p hp
    rcases mem_nset _ _ _ _ hp with hold | rfl
    · exact hinv p hold
    · obtain ⟨ha, hb, _, hd⟩ := hTd _ rfl
      exact ⟨ha, hb, hd⟩
  · intro p hp
    rcases mem_nset _ _ _ _ hp with hold | rfl
    · exact hinv p hold
    · obtain ⟨ha, hb, hff, hd⟩ := hTd _ rfl
      refine ⟨ha, hb, ?_⟩
      intro c hc
      rcases List.mem_append.mp hc with h2 | h2
      · exact hd c h2
      · rcases List.mem_cons.mp h2 with rfl | h3
        · exact hff
        · cases h3

/-- `processConfirmed` never touches the tracker state. -/
theorem processConfirmed_tracker (W H : ℕ) (fps : ℚ) (f : ℕ)
    (st : DetectState) (item : ℕ × String × BBoxQ) :
    (processConfirmed W H fps f st item).tracker = st.tracker := by
  simp only [processConfirmed]
  rcases (consider_frame st.cm item.1 W H f item.2.2 fps 1).2 with _ | paths
  · rfl
  · rfl

/-- Folding the body step over the reported tracks preserves the invariant
and the tracker state. -/
theorem foldl_processConfirmed_inv (W H : ℕ) (fps : ℚ) (f : ℕ) :
    ∀ (items : List (ℕ × String × BBoxQ)) (st : DetectState),
      (∀ it ∈ items, it.2.2.frame ≤ f) → trackedInv f st.tracked →
      trackedInv f
        ((items.foldl (processConfirmed W H fps f) st).tracked) ∧
      (items.foldl (processConfirmed W H fps f) st).tracker = st.tracker := by
  intro items
  induction items with
  | nil => intro st _ hinv; exact ⟨hinv, rfl⟩
  | cons it rest ih =>
      intro st hits hinv
      have step := processConfirmed_inv W H fps f st it
        (hits it (List.mem_cons_self _ _)) hinv
      obtain ⟨h1, h2⟩ := ih (processConfirmed W H fps f st it)
        (fun it' hit' => hits it' (List.mem_cons_of_mem _ hit')) step
      exact ⟨h1, by rw [List.foldl_cons, h2, processConfirmed_tracker]⟩

/-- One frame of the detection loop advances the combined invariant. -/
theorem processFrame_inv (W H : ℕ) (fps : ℚ)
    (dets : List (String × DetIn)) (n : ℕ) (st : DetectState)
    (h : detInv n st) :
    detInv (n + 1) (processFrame W H fps st dets (n + 1)) := by
  obtain ⟨htr, htd⟩ := h
  have hdets : ∀ d ∈ dets.map
      (fun cd => (cd.1, DetIn.toBBox cd.2 (n + 1))), d.2.frame ≤ n + 1 := by
    intro d hd
    rcases List.mem_map.mp hd with ⟨cd, _, rfl⟩
    exact le_refl (n + 1)
  have hts1 : ∀ t ∈ st.tracker.tracks, t.last_bbox.frame ≤ n + 1 :=
    fun t ht => Nat.le_succ_of_le (htr t ht)
  have hbound := trackerUpdate_bound st.tracker
    (dets.map (fun cd => (cd.1, DetIn.toBBox cd.2 (n + 1)))) (n + 1) (n + 1)
    hts1 hdets
  have htd1 : trackedInv (n + 1) st.tracked := by
    intro p hp
    obtain ⟨ha, hb, hc⟩ := htd p hp
    exact ⟨fun b hb2 => Nat.le_succ_of_le (ha b hb2), hb, hc⟩
  rw [processFrame]
  obtain ⟨hfold1, hfold2⟩ := foldl_processConfirmed_inv W H fps (n + 1)
    (trackerUpdate st.tracker
      (dets.map (fun cd => (cd.1, DetIn.toBBox cd.2 (n + 1)))) (n + 1)).2
    { st with tracker := (trackerUpdate st.tracker
        (dets.map (fun cd => (cd.1, DetIn.toBBox cd.2 (n + 1)))) (n + 1)).1 }
    hbound.2 htd1
  refine ⟨?_, hfold1⟩
  intro t ht
  rw [hfold2] at ht
  exact hbound.1 t ht

/-- Unrolling one frame of `process_video`. -/
theorem process_video_succ (detsFn : ℕ → List (String × DetIn))
    (n W H : ℕ) (fps : ℚ) :
    process_video detsFn (n + 1) W H fps =
      processFrame W H fps (process_video detsFn n W H fps)
        (detsFn (n + 1)) (n + 1) := by
  rw [process_video, process_video, List.range_succ, List.foldl_append,
    List.foldl_cons, List.foldl_nil]

/-- The combined invariant holds after any full detection run. -/
theorem detInv_process_video (detsFn : ℕ → List (String × DetIn))
    (numFrames W H : ℕ) (fps : ℚ) :
    detInv numFrames (process_video detsFn numFrames W H fps) := by
  induction numFrames with
  | zero =>
      constructor
      · intro t ht; cases ht
      · intro p hp; cases hp
  | succ n ih =>
      rw [process_video_succ]
      exact processFrame_inv W H fps (detsFn (n + 1)) n _ ih

/-- C2 (corrected): in any detection run, every capture of every tracked
detection sits at or after the track's `first_frame` (the lower half of the
claimed range property; the upper half fails, see the coasting
counterexample). -/
theorem C2_capture_after_first_frame (detsFn : ℕ → List (String × DetIn))
    (numFrames W H : ℕ) (fps : ℚ) (tid : ℕ) (td : TrackedDetection)
    (h : nget? (process_video detsFn numFrames W H fps).tracked tid =
      some td) (c : CaptureQ) (hc : c ∈ td.captures) :
    td.first_frame ≤ c.frame := by
  have hinv := detInv_process_video detsFn numFrames W H fps
  exact (hinv.2 (tid, td) (nget?_mem h)).2.2 c hc

set_option maxHeartbeats 4000000 in
/-- Evaluation of the coasting run: detections on frames 1–3 only, yet the
single capture is taken at frame 5 against the stale frame-3 box. -/
theorem c2run_tracked :
    nget? (process_video c2detsFn 5 100 100 5).tracked 1 = some c2td := by
  norm_num [process_video, List.range_succ, processFrame, trackerUpdate,
    detsByType, addDet, processClass, rowCosts, mergeBack,
    linear_sum_assignment, injectionsList, argminBy, pairsCost, matrixEntry,
    costEntry, acceptCost, calculate_iou, qmax, qmin, BBoxQ.area,
    iou_threshold, float64_0_3, float64_1_minus_0_3, f32round,
    Track.mkNew, Track.predictStep, Track.predBox, Track.updateWith,
    KF2.init, KF2.predict, KF2.correct, max_age, min_hits,
    processConfirmed, consider_frame, save_capture, stability_threshold,
    stability_frames, crop_margin, max_captures_per_track,
    TrackedDetection.add_bbox, DetIn.toBBox, nget?, nset,
    pyInt, c2detsFn, c2td, c2bbox, c2capture, List.enum, List.enumFrom,
    List.find?, List.getD, List.flatMap, List.erase, List.zip, List.zipWith,
    max_def, min_def]

/-- C2 counterexample: in the coasting run the tracker keeps reporting the
track after its last real measurement (frame 3), and the capture manager
then takes a capture at frame 5 — outside `[first_frame, last_frame]`:
`last_frame = 3 < 5 = c.frame`. -/
theorem C2_coasting_capture_exceeds_last_frame :
    nget? (process_video c2detsFn 5 100 100 5).tracked 1 = some c2td ∧
    c2capture ∈ c2td.captures ∧ c2td.last_frame < c2capture.frame := by
  refine ⟨c2run_tracked, ?_, ?_⟩
  · simp [c2td]
  · norm_num [c2td, c2capture, c2bbox, TrackedDetection.last_frame]

/-- C2 witness: the lower bound, instantiated on the coasting run's track
and its frame-5 capture. -/
theorem C2_capture_after_first_frame_witness :
    nget? (process_video c2detsFn 5 100 100 5).tracked 1 = some c2td ∧
    c2td.first_frame ≤ c2capture.frame :=
  ⟨c2run_tracked,
   C2_capture_after_first_frame c2detsFn 5 100 100 5 1 c2td c2run_tracked
     c2capture (by simp [c2td])⟩

end C2

/-! ## C7 — capture quotas -/

section C7
open Detection

set_option maxHeartbeats 8000000 in
/-- C7 (code_bug): `CaptureManager.get_capture_quota` implements exactly the
documented duration schedule (`1.99 s ↦ 1`, `4 s ↦ 3`, `12 s ↦ 6`) but is
dead code: `consider_frame` never consults it, enforcing only the flat
6-capture cap with 1 s spacing.  Sustained detections at 5 fps produce a
track whose capture count (2, at frames 5 and 10) already exceeds the quota
(1) applicable to its current duration (`2 s − 3/5 s = 1.4 s < 2 s`). -/
theorem C7_duration_quota_not_enforced :
    get_capture_quota (199/100) = 1 ∧ get_capture_quota 4 = 3 ∧
    get_capture_quota 12 = 6 ∧
    ((nget? (process_video c7detsFn 10 100 100 5).cm.track_data 1).map
      (fun e => (e.captures_taken,
        get_capture_quota ((10 : ℚ)/5 - e.first_seen_time)))) =
      some (2, 1) := by
  refine ⟨?_, ?_, ?_, ?_⟩
  · norm_num [get_capture_quota, max_captures_per_track]
  · norm_num [get_capture_quota, max_captures_per_track]
  · norm_num [get_capture_quota, max_captures_per_track]
  · norm_num [process_video, List.range_succ, processFrame, trackerUpdate,
      detsByType, addDet, processClass, rowCosts, mergeBack,
      linear_sum_assignment, injectionsList, argminBy, pairsCost, matrixEntry,
      costEntry, acceptCost, calculate_iou, qmax, qmin, BBoxQ.area,
      iou_threshold, float64_0_3, float64_1_minus_0_3, f32round,
      Track.mkNew, Track.predictStep, Track.predBox, Track.updateWith,
      KF2.init, KF2.predict, KF2.correct, max_age, min_hits,
      processConfirmed, consider_frame, save_capture, stability_threshold,
      stability_frames, crop_margin, max_captures_per_track,
      get_capture_quota, TrackedDetection.add_bbox, DetIn.toBBox, nget?, nset,
      pyInt, c7detsFn, List.enum, List.enumFrom,
      List.find?, List.getD, List.flatMap, List.erase, List.zip, List.zipWith,
      max_def, min_def]

end C7

end OccultaShield
